import Mathlib

set_option synthInstance.maxSize 1024

/-!
Verification of the amundsen-gremlin reconciliation and serialization core.

The Python source is shallowly embedded: Python values flowing through the
property type system are an inductive `Value` (Python `bool` is a subclass of
`int`, which `pyIntVal` reflects); Python dicts are association lists with
Python-dict update semantics (`PDict`); functions that can fail an `assert`
or raise (`KeyError`) return `Except String _`.
-/

/-- Python datetime.date: a calendar date. -/
structure DateV where
  year : Nat
  month : Nat
  day : Nat
deriving DecidableEq, Repr

/-- Python datetime.datetime: date plus time, microseconds, and whether the
value carries tzinfo (we only need presence/absence of a zone). -/
structure DateTimeV where
  year : Nat
  month : Nat
  day : Nat
  hour : Nat
  minute : Nat
  second : Nat
  microsecond : Nat
  hasTz : Bool
deriving DecidableEq, Repr

/-- Python values that flow through the gremlin property model.  `vFloat`
carries the decimal string `str()` would render (Python float rendering is
deterministic); `vNone` is Python `None`. -/
inductive Value where
  | vStr (s : String)
  | vBool (b : Bool)
  | vInt (n : Int)
  | vFloat (repr : String)
  | vDate (d : DateV)
  | vDateTime (dt : DateTimeV)
  | vNone
deriving DecidableEq, Repr

/-- Python `isinstance(value, int)`: holds for int and for bool (bool is a
subclass of int in Python); the int value of True is 1, of False is 0. -/
def pyIntVal : Value → Option Int
  | .vInt n => some n
  | .vBool b => some (if b then 1 else 0)
  | _ => none

/-- left-pad the decimal rendering of `n` with zeros to `w` digits
(Python's `%02d` / `%04d` used by `date.isoformat`). -/
def padNum (w : Nat) (n : Nat) : String :=
  let s := toString n
  if s.length < w then String.mk (List.replicate (w - s.length) '0') ++ s else s

/-- `datetime.date.isoformat()`: YYYY-MM-DD. -/
def isoDate (d : DateV) : String :=
  padNum 4 d.year ++ "-" ++ padNum 2 d.month ++ "-" ++ padNum 2 d.day

/-- `datetime.datetime.isoformat(timespec='seconds')`: YYYY-MM-DDTHH:MM:SS;
microseconds and (absent) zone never appear. -/
def isoDateTimeSeconds (dt : DateTimeV) : String :=
  padNum 4 dt.year ++ "-" ++ padNum 2 dt.month ++ "-" ++ padNum 2 dt.day ++ "T"
    ++ padNum 2 dt.hour ++ ":" ++ padNum 2 dt.minute ++ ":" ++ padNum 2 dt.second

/-- Python `str(value)` for the values the default `GremlinTyper.format`
can reach (after `is_allowed`): strings verbatim, `True`/`False`, decimal
integers, the float's decimal rendering. -/
def pyStr : Value → String
  | .vStr s => s
  | .vBool b => if b then "True" else "False"
  | .vInt n => toString n
  | .vFloat s => s
  | .vDate d => isoDate d
  | .vDateTime dt => isoDateTimeSeconds dt
  | .vNone => "None"

/-- The scalar types of `GremlinType` (gremlin_model.py). -/
inductive GremlinType where
  | Boolean | Byte | Short | Int | Long | Float | Double | String | Date
deriving DecidableEq, Repr

/-- name of the enum constant, used by `Property.header`.  (Not declared in
the `GremlinType` namespace because the `String` constructor would shadow
the `String` type there.) -/
def gremlinTypeName : GremlinType → String
  | .Boolean => "Boolean"
  | .Byte => "Byte"
  | .Short => "Short"
  | .Int => "Int"
  | .Long => "Long"
  | .Float => "Float"
  | .Double => "Double"
  | .String => "String"
  | .Date => "Date"

/-- `GremlinTyper.is_allowed`, one branch per typer class:
Boolean requires `isinstance(value, bool)`; Byte/Short/Int/Long require
`isinstance(value, int)` (so Python bools qualify) within the half-open
two's-complement range; Float/Double require `isinstance(value, float)`;
String requires `isinstance(value, str)`; Date accepts `datetime.date` and
tz-naive `datetime.datetime` only. -/
def is_allowed : GremlinType → Value → Bool
  | .Boolean, .vBool _ => true
  | .Boolean, _ => false
  | .Byte, v => (pyIntVal v).elim false (fun n => -(2^7) ≤ n && n < 2^7)
  | .Short, v => (pyIntVal v).elim false (fun n => -(2^15) ≤ n && n < 2^15)
  | .Int, v => (pyIntVal v).elim false (fun n => -(2^31) ≤ n && n < 2^31)
  | .Long, v => (pyIntVal v).elim false (fun n => -(2^63) ≤ n && n < 2^63)
  | .Float, .vFloat _ => true
  | .Float, _ => false
  | .Double, .vFloat _ => true
  | .Double, _ => false
  | .String, .vStr _ => true
  | .String, _ => false
  | .Date, .vDate _ => true
  | .Date, .vDateTime dt => !dt.hasTz
  | .Date, _ => false

/-- `GremlinDateTyper.format`: datetime first (its `isoformat` at second
precision), then date (`isoformat`); anything else is the defensive
`AssertionError` branch.  The tz re-check mirrors the source's
`assert value.tzinfo is None` double check. -/
def gremlinDateFormat : Value → Except String String
  | .vDateTime dt =>
      if dt.hasTz then .error "wat? already checked there was no tzinfo"
      else .ok (isoDateTimeSeconds dt)
  | .vDate d => .ok (isoDate d)
  | _ => .error "wat? already checked value was datetime or date"

/-- `GremlinTyper.format`: `is_allowed` first (an `assert`, so failure is an
error), then `str(value)`; the Date typer overrides with its own renderer. -/
def gremlin_format (gt : GremlinType) (v : Value) : Except String String :=
  if is_allowed gt v then
    match gt with
    | .Date => gremlinDateFormat v
    | _ => .ok (pyStr v)
  else .error "is_allowed failed"

/-- `GremlinCardinality`. -/
inductive GremlinCardinality where
  | single | set | list
deriving DecidableEq, Repr

/-- name of the cardinality constant, used by `Property.header`. -/
def GremlinCardinality.name : GremlinCardinality → String
  | .single => "single"
  | .set => "set"
  | .list => "list"

/-- `Property` (a NamedTuple).  Python equality of properties ignores the
class, so the `MagicProperty` subclass (which only changes `header`) is not
a field here: in the schema the magic properties are exactly the ones whose
name starts with `~`, which `header` tests for. -/
structure Property where
  name : String
  type : GremlinType
  cardinality : Option GremlinCardinality := none
  multi_valued : Bool := false
  required : Bool := false
  comment : Option String := none
  default : Option Value := none
deriving DecidableEq, Repr

/-- `Property.signature(default_cardinality)`: the `(name, type,
cardinality or default)` triple used for conflict detection; all other
fields are defaulted away by the source's `type(self)(name=..., type=...,
cardinality=...)`, and Python namedtuple equality ignores the class. -/
structure Signature where
  name : String
  type : GremlinType
  cardinality : Option GremlinCardinality
deriving DecidableEq, Repr

def Property.signature (p : Property) (default_cardinality : Option GremlinCardinality) : Signature :=
  { name := p.name, type := p.type,
    cardinality := match p.cardinality with | some c => some c | none => default_cardinality }

/-- `Property.format`: format via the typer of the declared type. -/
def Property.format (p : Property) (v : Value) : Except String String :=
  gremlin_format p.type v

/-- `Property.header` / `MagicProperty.header`: magic properties (the
`~`-named ones) emit only their name; others `name:TYPE(card)[]`. -/
def Property.header (p : Property) : String :=
  if p.name.startsWith "~" then p.name
  else
    p.name ++ ":" ++ gremlinTypeName p.type
      ++ (match p.cardinality with
          | some c => "(" ++ c.name ++ ")"
          | none => "")
      ++ (if p.multi_valued then "[]" else "")

/-- `MagicProperties.ID.value`. -/
def magicID : Property := { name := "~id", type := .String, required := true }
/-- `MagicProperties.LABEL.value`. -/
def magicLABEL : Property := { name := "~label", type := .String, required := true }
/-- `MagicProperties.FROM.value`. -/
def magicFROM : Property := { name := "~from", type := .String, required := true }
/-- `MagicProperties.TO.value`. -/
def magicTO : Property := { name := "~to", type := .String, required := true }

/-- `WellKnownProperties.Key.value`. -/
def wellKnownKey : Property := { name := "key", type := .String, required := true }
/-- `WellKnownProperties.Created.value`. -/
def wellKnownCreated : Property := { name := "created", type := .Date, required := true }
/-- `WellKnownProperties.Expired.value`. -/
def wellKnownExpired : Property := { name := "expired", type := .Date }
/-- `WellKnownProperties.TestShard.value` (the comment string is part of the
namedtuple and so of equality; abbreviated here, used consistently). -/
def wellKnownTestShard : Property :=
  { name := "shard", type := .String, required := true, comment := some "test shard" }

/-! ## Python dicts as association lists

A `PDict` models a Python dict: lookup returns the first binding, updating
an existing key replaces its value in place, a new key is appended (Python
dicts preserve insertion order).  Python dict equality is content equality,
`pdictBeq`. -/

abbrev PDict (α β : Type) : Type := List (α × β)

namespace PDict

variable {α β : Type} [DecidableEq α]

def nil : PDict α β := []

def get? : PDict α β → α → Option β
  | [], _ => none
  | (k, v) :: rest, a => if k = a then some v else get? rest a

def getD (d : PDict α β) (a : α) (dflt : β) : β :=
  (d.get? a).getD dflt

def contains (d : PDict α β) (a : α) : Bool :=
  (d.get? a).isSome

def insert : PDict α β → α → β → PDict α β
  | [], a, b => [(a, b)]
  | (k, v) :: rest, a, b => if k = a then (a, b) :: rest else (k, v) :: insert rest a b

def keys (d : PDict α β) : List α := d.map Prod.fst

def entries (d : PDict α β) : List (α × β) := d

/-- the keys are pairwise distinct: always true of a real Python dict. -/
def NodupKeys (d : PDict α β) : Prop := d.keys.Nodup

instance (d : PDict α β) : Decidable (NodupKeys d) := by
  unfold NodupKeys; infer_instance

/-- Python `==` on dicts: same keys, same values (order-insensitive). -/
def pdictBeq [DecidableEq β] (a b : PDict α β) : Bool :=
  a.all (fun kv => b.get? kv.1 = some kv.2) && b.all (fun kv => a.get? kv.1 = some kv.2)

end PDict

/-! ## Python string helpers

Python `str` operations used by `possible_application_names_application_key`,
modelled on the character list so that concrete evaluation reduces in the
kernel. -/

/-- Python `s.startswith(p)`. -/
def pyStartsWith (s p : String) : Bool :=
  s.toList.take p.toList.length = p.toList

/-- Python `s.endswith(p)`. -/
def pyEndsWith (s p : String) : Bool :=
  s.toList.drop (s.toList.length - p.toList.length) = p.toList
      && p.toList.length ≤ s.toList.length

/-- Python `s[n:]`. -/
def pySliceFrom (s : String) (n : Nat) : String :=
  String.mk (s.toList.drop n)

/-- Python `s[:-n]` for `n ≤ len(s)`. -/
def pySliceUpToNeg (s : String) (n : Nat) : String :=
  String.mk (s.toList.take (s.toList.length - n))

/-- Python `len(s)`. -/
def pyLen (s : String) : Nat := s.toList.length

/-- `HISTORICAL_APP_PREFIX` in gremlin_model_converter.py (renamed here to
avoid clashing with notation-reserved suffixes). -/
def HISTORICAL_APP_PRE : String := "app-"

/-- `ENVIRONMENT_APP_SUFFIXES`: a frozenset in the source; iteration order
there is unspecified, but no key can end with two different entries of this
set, so the order of this list is immaterial.  -/
def ENVIRONMENT_APP_SUFFIXES : List String :=
  ["-development", "-devel", "-staging", "-stage", "-production", "-prod"]

/-- `possible_application_names_application_key`: the original key plus the
`app-`-toggled variant, and, when the key ends with an environment suffix
(the for-loop breaks at the first match), both with that suffix stripped. -/
def possible_application_names_application_key (app_key : String) : List String :=
  let app_keys :=
    if pyStartsWith app_key HISTORICAL_APP_PRE then
      [app_key, pySliceFrom app_key (pyLen HISTORICAL_APP_PRE)]
    else
      [app_key, HISTORICAL_APP_PRE ++ app_key]
  match ENVIRONMENT_APP_SUFFIXES.find? (fun sfx => pyEndsWith app_key sfx) with
  | some sfx => app_keys ++ app_keys.map (fun s => pySliceUpToNeg s (pyLen sfx))
  | none => app_keys

/-! ## The development/test shard (test_and_development_shard.py)

Module-level state `_shard : Optional[str]`, `_shard_used : bool`, guarded
by a lock (the engine is modelled single-threaded, so the lock is the
identity).  `shard_set_explicitly` asserts the shard has not been used and
assigns; `get_shard` marks it used and returns the cached value. -/

structure ShardState where
  shard : Option String
  used : Bool
deriving DecidableEq, Repr

/-- `shard_set_explicitly(shard)`: fatal `assert not _shard_used`, then
assign.  Returns the module state after the call plus the raised
`AssertionError` if any (the assignment is never reached on failure, so the
state comes back unchanged). -/
def shard_set_explicitly (s : Option String) (st : ShardState) :
    ShardState × Except String Unit :=
  if st.used then
    (st, .error "can only shard_set_explicitly if it has not been used yet.")
  else
    ({ st with shard := s }, .ok ())

/-- `get_shard()`: returns `_shard` and marks `_shard_used`. -/
def get_shard (st : ShardState) : Option String × ShardState :=
  (st.shard, { st with used := true })

/-! ## Format-string templates

The id formats are Python format strings whose only syntax is `{name}`
placeholders; they are embedded as alternating literal/parameter chunks.
`_discover_parameters` discovers the placeholder set by retrying on
`KeyError`; its net effect is the set of parameter names, which
`discover_parameters` computes directly (first-occurrence order). -/

inductive Chunk where
  | lit (s : String)
  | param (n : String)
deriving DecidableEq, Repr

abbrev Template : Type := List Chunk

def discover_parameters (tpl : Template) : List String :=
  tpl.foldl
    (fun acc c =>
      match c with
      | .param n => if n ∈ acc then acc else acc ++ [n]
      | .lit _ => acc)
    []

/-- `format_string.format(**values)`: a missing parameter raises `KeyError`;
a parameter bound to Python `None` renders as `str(None) = "None"`. -/
def renderTemplate (tpl : Template) (values : PDict String (Option String)) :
    Except String String :=
  match tpl with
  | [] => .ok ""
  | .lit s :: rest => do
      let r ← renderTemplate rest values
      .ok (s ++ r)
  | .param n :: rest =>
      match values.get? n with
      | none => .error "KeyError"
      | some v => do
          let r ← renderTemplate rest values
          .ok (v.getD "None" ++ r)

/-! ## Vertex and edge types (gremlin_model.py)

`VertexType` and `EdgeType` are embedded as one structure with a `kind`
field; the only behavioral differences (the `defaults` fill in `id` and
`create`, which edge types do not have) are conditioned on the kind.  The
Python `properties` tuple comes from a set, whose iteration order is
unspecified; no claim here depends on that order. -/

inductive GKind where
  | vertex | edge
deriving DecidableEq, Repr

structure GraphEntityType where
  kind : GKind
  label : String
  properties : List Property
  id_format : Template
  defaults : List (String × Value) := []
deriving DecidableEq, Repr

/-- `GraphEntity`: a realized vertex/edge instance, a Python dict from
property name to value. -/
abbrev Entity : Type := PDict String Value

/-- `properties_as_map`: name-keyed dict of the declared properties;
`assert len(mapping) == len(self.properties)` fails on duplicate names. -/
def properties_as_map (t : GraphEntityType) : Except String (PDict String Property) :=
  if (t.properties.foldl (fun acc p => acc.insert p.name p) PDict.nil).entries.length
      = t.properties.length then
    .ok (t.properties.foldl (fun acc p => acc.insert p.name p) PDict.nil)
  else .error "are property names not unique?"

/-- the `for name, value in self.defaults: if name not in entity:
entity[name] = value` loop shared by `VertexType.id` and
`VertexType.create`. -/
def applyDefaults (defaults : List (String × Value)) (e : Entity) : Entity :=
  defaults.foldl (fun acc nv => if acc.contains nv.1 then acc else acc.insert nv.1 nv.2) e

/-- one entry of the `values` dict built by `id()`: `None` is kept (and
later renders as `"None"`), strings pass through unformatted, anything else
is formatted by the property's typer (`properties_as_map()[n]`, a
`KeyError` if `n` is not declared). -/
def idTransform (m : PDict String Property) (n : String) (v : Value) :
    Except String (Option String) :=
  match v with
  | .vNone => .ok none
  | .vStr s => .ok (some s)
  | _ =>
      match m.get? n with
      | none => .error "KeyError"
      | some p => do
          let s ← p.format v
          .ok (some s)

def idValuesOf (m : PDict String Property) : Entity → Except String (PDict String (Option String))
  | [] => .ok []
  | (n, v) :: rest => do
      let s ← idTransform m n v
      let r ← idValuesOf m rest
      .ok ((n, s) :: r)

/-- `VertexType.id` / `EdgeType.id` (they differ only in the vertex-side
defaults fill): apply type defaults to absent names (vertex only), format
every non-string non-None value via its property, overwrite `~label` with
the type label, and render the id format. -/
def entity_id (t : GraphEntityType) (entity : Entity) : Except String String := do
  let entity := if t.kind = .vertex then applyDefaults t.defaults entity else entity
  let m ← properties_as_map t
  let values ← idValuesOf m entity
  let values := values.insert "~label" (some t.label)
  renderTemplate t.id_format values

/-- the `properties.update([(k, v) for k, v in self.properties_as_map().items()
if v.default is not None and k not in properties])` step of `create`. -/
def applyPropertyDefaults (m : PDict String Property) (props : Entity) : Entity :=
  m.entries.foldl
    (fun acc kp =>
      match kp.2.default with
      | some d => if acc.contains kp.1 then acc else acc.insert kp.1 d
      | none => acc)
    props

/-- `VertexType.create` / `EdgeType.create` (they differ only in the
vertex-side defaults fill): synthesize `~id` when the ID magic property is
declared and `~id` absent, fill `~label` likewise, fill type defaults
(vertex), drop `None` values, fill property-level defaults, then assert the
remaining names are declared and every required name is present. -/
def type_create (t : GraphEntityType) (props0 : Entity) : Except String Entity := do
  let m ← properties_as_map t
  let props ←
    if magicID ∈ t.properties ∧ props0.contains "~id" = false then do
      let i ← entity_id t props0
      pure (props0.insert "~id" (.vStr i))
    else pure props0
  let props :=
    if magicLABEL ∈ t.properties ∧ props.contains "~label" = false then
      props.insert "~label" (.vStr t.label)
    else props
  let props := if t.kind = .vertex then applyDefaults t.defaults props else props
  let props := props.filter (fun nv => nv.2 ≠ .vNone)
  let props := applyPropertyDefaults m props
  if props.keys.all (fun k => m.contains k) then
    if m.entries.all (fun kp => !kp.2.required || props.contains kp.1) then
      .ok props
    else .error "expected required properties"
  else .error "unexpected properties"

/-- the label fill, defaults fill, `None` drop and property-default fill
of `create`, as a function of the properties after `~id` synthesis (the
last four assignments to `properties` in `VertexType.create` /
`EdgeType.create`). -/
def createPipeline (t : GraphEntityType) (m : PDict String Property)
    (wid : Entity) : Entity :=
  applyPropertyDefaults m
    ((if t.kind = .vertex then
        applyDefaults t.defaults
          (if magicLABEL ∈ t.properties ∧ wid.contains "~label" = false
           then wid.insert "~label" (.vStr t.label) else wid)
      else
        (if magicLABEL ∈ t.properties ∧ wid.contains "~label" = false
         then wid.insert "~label" (.vStr t.label) else wid)).filter
      (fun nv => nv.2 ≠ .vNone))

/-! ## Existing keys and the reconciliation engine
(gremlin_model_converter.py) -/

/-- `EXISTING_KEY = FrozenSet[Tuple[str, str]]`, canonicalized here as the
name-sorted list of pairs (the names are distinct, so this is a canonical
representative of the frozenset). -/
abbrev ExistingKey : Type := List (String × String)

def insertPairSorted (p : String × String) : List (String × String) → List (String × String)
  | [] => [p]
  | q :: rest => if p.1 ≤ q.1 then p :: q :: rest else q :: insertPairSorted p rest

def sortPairs (l : List (String × String)) : ExistingKey :=
  l.foldl (fun acc p => insertPairSorted p acc) []

/-- `_get_key_properties`: the properties named by the id format's
discovered parameters (`KeyError` if a parameter is not declared); a
frozenset in the source, a duplicate-free list here. -/
def get_key_properties (t : GraphEntityType) : Except String (List Property) := do
  let m ← properties_as_map t
  (discover_parameters t.id_format).mapM
    (fun n =>
      match m.get? n with
      | none => .error "KeyError"
      | some p => .ok p)

/-- `_get_existing_key`: drop `Created` (edges), `TestShard` (vertices) and
`LABEL` from the key properties (removal is by full namedtuple equality
with those exact constants), assert the first two of those are gone, then
pair each remaining property name with the formatted value from the entity
(`entity.get(name)`, so a missing name formats `None` and fails). -/
def get_existing_key (t : GraphEntityType) (entity : Entity) :
    Except String ExistingKey := do
  let kp ← get_key_properties t
  let kp := if t.kind = .edge then kp.filter (fun p => p ≠ wellKnownCreated) else kp
  let kp := if t.kind = .vertex then kp.filter (fun p => p ≠ wellKnownTestShard) else kp
  let kp := kp.filter (fun p => p ≠ magicLABEL)
  if wellKnownCreated ∈ kp then .error "assert Created not in key_properties"
  else if magicLABEL ∈ kp then .error "assert LABEL not in key_properties"
  else do
    let pairs ← kp.mapM
      (fun p => do
        let s ← p.format ((entity.get? p.name).getD .vNone)
        .ok (p.name, s))
    .ok (sortPairs pairs)

/-- `ENTITIES`: type → id-value → entity (`_id` is `entity.get('~id', None)`,
so the key is a raw Python value, `vNone` when absent). -/
abbrev EntitiesMap : Type := PDict GraphEntityType (PDict Value Entity)

/-- `EXISTING`: type → existing-key → entity. -/
abbrev ExistingMap : Type := PDict GraphEntityType (PDict ExistingKey Entity)

structure CreateResult where
  entity : Entity
  entities : EntitiesMap
  existing : ExistingMap
  logs : List String

instance : DecidableEq CreateResult := fun a b =>
  decidable_of_iff
    (a.entity = b.entity ∧ a.entities = b.entities ∧ a.existing = b.existing
      ∧ a.logs = b.logs)
    (by cases a; cases b; simp)

/-- `_GetGraph._create`: compute the existing key; when it matches a
previously persisted record, overlay the identity-defining property values
from that record onto the raw properties before `create`, otherwise create
directly and register the fresh entity into EXISTING; then insert the
result into ENTITIES under its id unless that id is taken, in which case
the stored entity wins and a non-fatal inconsistency is logged if the
contents differ.  Returns `_entities[_type][_id]`. -/
def GetGraph_create (t : GraphEntityType) (entities : EntitiesMap)
    (existing : ExistingMap) (kwargs : Entity) : Except String CreateResult := do
  let ek ← get_existing_key t kwargs
  let (entity, existing) ←
    match (existing.getD t PDict.nil).get? ek with
    | some ex => do
        let kp ← get_key_properties t
        let names := kp.map Property.name
        let kwargs := ex.foldl
          (fun acc kv => if kv.1 ∈ names then acc.insert kv.1 kv.2 else acc) kwargs
        let e ← type_create t kwargs
        pure (e, existing)
    | none => do
        let e ← type_create t kwargs
        pure (e, existing.insert t ((existing.getD t PDict.nil).insert ek e))
  let idv := (entity.get? "~id").getD .vNone
  match (entities.getD t PDict.nil).get? idv with
  | some stored =>
      let logs := if PDict.pdictBeq stored entity then [] else ["we already have an entity that is different"]
      .ok ⟨stored, entities, existing, logs⟩
  | none =>
      .ok ⟨entity, entities.insert t ((entities.getD t PDict.nil).insert idv entity),
           existing, []⟩

/-- Python `del d[k]`: `KeyError` when the key is absent. -/
def pyDel {α β : Type} [DecidableEq α] (d : PDict α β) (a : α) :
    Except String (PDict α β) :=
  if d.contains a then .ok (d.filter (fun kv => kv.1 ≠ a)) else .error "KeyError"

/-- the inner loop of `expire_previously_existing` over one edge type:
for each previously existing record, read its `~id` (a `KeyError` if
absent), `continue` when that id was re-created in this run, otherwise
`del entities[edge_type][entity_id]`. -/
def expireForType (entsForType : PDict Value Entity) :
    List (ExistingKey × Entity) → Except String (PDict Value Entity)
  | [] => .ok entsForType
  | (_, entity) :: rest =>
      match entity.get? "~id" with
      | none => .error "KeyError"
      | some idv =>
          if entsForType.contains idv then expireForType entsForType rest
          else do
            let ents' ← pyDel entsForType idv
            expireForType ents' rest

def expireTypes : List GraphEntityType → EntitiesMap → ExistingMap →
    Except String EntitiesMap
  | [], ents, _ => .ok ents
  | t :: rest, ents, existing => do
      let perType ← expireForType (ents.getD t PDict.nil) (existing.getD t PDict.nil).entries
      expireTypes rest (ents.insert t perType) existing

/-- `_GetGraph.expire_previously_existing`: assert all given types are edge
types, then run the per-type loop. -/
def expire_previously_existing (edge_types : List GraphEntityType)
    (entities : EntitiesMap) (existing : ExistingMap) : Except String EntitiesMap :=
  if edge_types.all (fun t => t.kind == GKind.edge) then
    expireTypes edge_types entities existing
  else .error "expected all EdgeTypes or EdgeType"

/-! ## The serialization partitioner (neptune_bulk_loader/api.py)

`partition_properties` recurses with `_try`; the Python recursion always
terminates because each split produces at least two nonempty, strictly
smaller groups, so a fuel of `|types| + 1` is an upper bound on the depth
(exhausted fuel is an error branch that is never reached from
`partition_properties`).  `defaultdict(set)` accumulators become
duplicate-free lists in first-insertion order; only their contents matter
to the properties proved here. -/

/-- `by_name[signature.name].add(signature)`. -/
def addSigByName (by_name : PDict String (List Signature)) (s : Signature) :
    PDict String (List Signature) :=
  let cur := by_name.getD s.name []
  if s ∈ cur then by_name else by_name.insert s.name (cur ++ [s])

/-- `by_signature[signature].add(t)`. -/
def addTypeBySig (by_sig : PDict Signature (List GraphEntityType))
    (s : Signature) (t : GraphEntityType) : PDict Signature (List GraphEntityType) :=
  let cur := by_sig.getD s []
  if t ∈ cur then by_sig else by_sig.insert s (cur ++ [t])

/-- the two accumulating loops at the top of `_try`. -/
def buildSigMaps (dc : Option GremlinCardinality) (ts : List GraphEntityType) :
    PDict String (List Signature) × PDict Signature (List GraphEntityType) :=
  ts.foldl
    (fun maps t =>
      t.properties.foldl
        (fun maps p =>
          let s := p.signature dc
          (addSigByName maps.1 s, addTypeBySig maps.2 s t))
        maps)
    (PDict.nil, PDict.nil)

/-- Python `sorted(_, key=len)`: stable insertion sort ascending by
length. -/
def insertByLen (x : List GraphEntityType) :
    List (List GraphEntityType) → List (List GraphEntityType)
  | [] => [x]
  | y :: rest => if y.length ≤ x.length then y :: insertByLen x rest else x :: y :: rest

def sortByLen (l : List (List GraphEntityType)) : List (List GraphEntityType) :=
  l.foldl (fun acc x => insertByLen x acc) []

def pairwiseDisjointB : List (List GraphEntityType) → Bool
  | [] => true
  | g :: rest => (rest.all fun h => g.all fun x => !h.contains x) && pairwiseDisjointB rest

/-- the per-signature groups for the first conflicting property name,
sorted ascending by size (Python `sorted(..., key=len)`, stable). -/
def overlappingTypesOf (dc : Option GremlinCardinality) (_types : List GraphEntityType)
    (nameSigs : String × List Signature) : List (List GraphEntityType) :=
  sortByLen (nameSigs.2.map (fun s => PDict.getD (buildSigMaps dc _types).2 s []))

/-- `other_types = set(_types).difference(all_overlapping_types)`. -/
def otherTypesOf (dc : Option GremlinCardinality) (_types : List GraphEntityType)
    (nameSigs : String × List Signature) : List GraphEntityType :=
  _types.filter (fun t => t ∉ (overlappingTypesOf dc _types nameSigs).foldl (· ++ ·) [])

/-- `partition_properties._try`, one level: build the signature maps, and
if some property name has more than one signature return the per-signature
groups (sorted ascending by size, the asserts included) with all untouched
types folded into the first (smallest) group; `none` when there is no
conflict. -/
def trySplit (dc : Option GremlinCardinality) (_types : List GraphEntityType) :
    Option (Except String (List (List GraphEntityType))) :=
  match (buildSigMaps dc _types).1.entries.find? (fun kv => kv.2.length ≠ 1) with
  | none => none
  | some nameSigs =>
      some (
        if pairwiseDisjointB (overlappingTypesOf dc _types nameSigs) then
          if (otherTypesOf dc _types nameSigs).all
              (fun t => (overlappingTypesOf dc _types nameSigs).all fun g => !g.contains t) then
            match overlappingTypesOf dc _types nameSigs with
            | [] => .error "unreachable: a conflict has at least two signatures"
            | g0 :: gs =>
                if ((g0 ++ otherTypesOf dc _types nameSigs) :: gs).foldl
                      (fun n g => n + g.length) 0 = _types.length
                    ∧ ((g0 ++ otherTypesOf dc _types nameSigs) :: gs).all
                        (fun g => g.length ≠ 0) then
                  .ok ((g0 ++ otherTypesOf dc _types nameSigs) :: gs)
                else .error "expected to make progress"
          else .error "expected to not overlap"
        else .error "expected to not overlap")

/-- `_try` itself: no conflict appends `_types` as one partition, otherwise
recurse on each group of the split. -/
def partitionTry (dc : Option GremlinCardinality) :
    Nat → List GraphEntityType → Except String (List (List GraphEntityType))
  | 0, _ => .error "fuel exhausted (unreachable)"
  | fuel + 1, _types =>
      match trySplit dc _types with
      | none => .ok [_types]
      | some r => do
          let groups ← r
          let parts ← groups.mapM (partitionTry dc fuel)
          .ok parts.flatten

/-- `partition_properties`: the vertex/edge default cardinality, the
recursion, and the two final asserts (cover and pairwise disjointness). -/
def partition_properties (types : List GraphEntityType) :
    Except String (List (List GraphEntityType)) := do
  let dc ←
    if types.all (fun t => t.kind == GKind.vertex) then
      .ok (some GremlinCardinality.single)
    else if types.all (fun t => t.kind == GKind.edge) then
      .ok (none : Option GremlinCardinality)
    else .error "some are not VertexType or EdgeType?"
  let partitioned ← partitionTry dc (types.length + 1) types
  if partitioned.foldl (fun n g => n + g.length) 0 = types.length then
    if pairwiseDisjointB partitioned then .ok partitioned
    else .error "do they overlap?"
  else .error "did we cover them all?"

/-! ## write_csv (neptune_bulk_loader/api.py) -/

abbrev PropertiesMap : Type := PDict String Property

/-- a formatted entity: property name → formatted value (or Python None,
which `write_csv` treats as not present). -/
abbrev FormattedEntity : Type := PDict String (Option String)

def insertStringSorted (s : String) : List String → List String
  | [] => [s]
  | x :: rest => if x ≤ s then x :: insertStringSorted s rest else s :: x :: rest

/-- Python `sorted(list_of_names)`. -/
def sortStrings (l : List String) : List String :=
  l.foldl (fun acc s => insertStringSorted s acc) []

/-- `write_csv(file, properties, entities)`, with the csv output modelled
as the list of rows written: collect the names carrying a non-None value
in any entity, assert they are declared, and if none remain write nothing
at all; otherwise write the header row then one row per entity with
missing (or None) values rendered empty. -/
def write_csv (properties : PropertiesMap) (entities : List FormattedEntity) :
    Except String (List (List String)) :=
  let property_names_set := entities.foldl
    (fun acc e =>
      e.foldl
        (fun acc kv =>
          match kv.2 with
          | some _ => if kv.1 ∈ acc then acc else acc ++ [kv.1]
          | none => acc)
        acc)
    ([] : List String)
  if property_names_set.all (fun n => properties.contains n) then
    let property_names := sortStrings property_names_set
    if property_names.isEmpty then .ok []
    else
      .ok (property_names.map (fun n => ((properties.get? n).map Property.header).getD "")
        :: entities.map (fun e => property_names.map (fun n => ((e.get? n).getD none).getD "")))
  else .error "wat? entities have property names not in the Properties?"

/-! ## Concrete schema instances for evaluation

Concrete types mirroring entries of the `VertexTypes`/`EdgeTypes` enums
(built with no active shard, so no `shard` property or id prefix; the
Python `properties` tuple order comes from a set and is immaterial to the
claims). -/

def namePropR : Property := { name := "name", type := .String, required := true }
def is_viewProp : Property := { name := "is_view", type := .Boolean }
def display_nameProp : Property := { name := "display_name", type := .String }

/-- `VertexTypes.Table.value` (no shard active). -/
def TableVT : GraphEntityType :=
  { kind := .vertex, label := "Table",
    properties := [magicLABEL, magicID, wellKnownKey, namePropR, is_viewProp, display_nameProp],
    id_format := [.param "~label", .lit ":", .param "key"] }

/-- `EdgeTypes.Owner.value`: an expirable edge type with the EXPIRABLE id
format. -/
def OwnerET : GraphEntityType :=
  { kind := .edge, label := "OWNER",
    properties := [magicLABEL, magicID, magicFROM, magicTO, wellKnownCreated, wellKnownExpired],
    id_format := [.param "~label", .lit ":", .param "created", .lit ":",
                  .param "~from", .lit "->", .param "~to"] }

/-! small vertex types exercising `partition_properties`: `typeA` declares
`p` as String, `typeB`/`typeC` declare `p` as Int (one conflict on `p` with
group sizes 1 and 2), `typeD` is untouched by the conflict. -/

def propPString : Property := { name := "p", type := .String }
def propPInt : Property := { name := "p", type := .Int }
def propQ : Property := { name := "q", type := .String }

def typeA : GraphEntityType :=
  { kind := .vertex, label := "A", properties := [propPString], id_format := [] }
def typeB : GraphEntityType :=
  { kind := .vertex, label := "B", properties := [propPInt], id_format := [] }
def typeC : GraphEntityType :=
  { kind := .vertex, label := "C", properties := [propPInt], id_format := [] }
def typeD : GraphEntityType :=
  { kind := .vertex, label := "D", properties := [propQ], id_format := [] }

/-- The spec's description of Date formatting, stated independently of the
source: a timezone-naive datetime renders at second precision in ISO form
(`YYYY-MM-DDTHH:MM:SS`), a plain date renders at calendar-day precision
(`YYYY-MM-DD`); no zone designator is ever part of the output. -/
def dateFormatSpec : Value → String
  | .vDateTime dt =>
      padNum 4 dt.year ++ "-" ++ padNum 2 dt.month ++ "-" ++ padNum 2 dt.day
        ++ "T" ++ padNum 2 dt.hour ++ ":" ++ padNum 2 dt.minute ++ ":" ++ padNum 2 dt.second
  | .vDate d => padNum 4 d.year ++ "-" ++ padNum 2 d.month ++ "-" ++ padNum 2 d.day
  | _ => ""

/-! # Theorems -/

namespace PDict

variable {α β : Type} [DecidableEq α]

theorem get?_cons (k : α) (v : β) (rest : PDict α β) (a : α) :
    get? ((k, v) :: rest) a = if k = a then some v else get? rest a := rfl

theorem insert_cons (k : α) (v : β) (rest : PDict α β) (a : α) (b : β) :
    insert ((k, v) :: rest) a b
      = if k = a then (a, b) :: rest else (k, v) :: insert rest a b := rfl

omit [DecidableEq α] in
theorem keys_cons (k : α) (v : β) (rest : PDict α β) :
    keys ((k, v) :: rest) = k :: keys rest := rfl

theorem contains_cons (k : α) (v : β) (rest : PDict α β) (a : α) :
    contains ((k, v) :: rest) a = if k = a then true else contains rest a := by
  unfold contains
  rw [get?_cons]
  by_cases h : k = a <;> simp [h]

theorem get?_insert_self (d : PDict α β) (a : α) (b : β) :
    (d.insert a b).get? a = some b := by
  induction d with
  | nil => simp [insert, get?]
  | cons kv rest ih =>
      obtain ⟨k, v⟩ := kv
      rw [insert_cons]
      by_cases h : k = a
      · rw [if_pos h, get?_cons, if_pos rfl]
      · rw [if_neg h, get?_cons, if_neg h]
        exact ih

theorem get?_insert_ne (d : PDict α β) (a a' : α) (b : β) (h : a ≠ a') :
    (d.insert a b).get? a' = d.get? a' := by
  induction d with
  | nil => simp [insert, get?, h]
  | cons kv rest ih =>
      obtain ⟨k, v⟩ := kv
      rw [insert_cons]
      by_cases hk : k = a
      · rw [if_pos hk, get?_cons, get?_cons, hk, if_neg h, if_neg h]
      · rw [if_neg hk, get?_cons, get?_cons]
        by_cases hk' : k = a'
        · rw [if_pos hk', if_pos hk']
        · rw [if_neg hk', if_neg hk']
          exact ih

theorem get?_insert (d : PDict α β) (a a' : α) (b : β) :
    (d.insert a b).get? a' = if a = a' then some b else d.get? a' := by
  by_cases h : a = a'
  · subst h; simp [get?_insert_self]
  · simp [h, get?_insert_ne d a a' b h]

theorem contains_of_mem_keys (d : PDict α β) (a : α) (h : a ∈ d.keys) :
    d.contains a = true := by
  induction d with
  | nil => simp [keys] at h
  | cons kv rest ih =>
      obtain ⟨k, v⟩ := kv
      rw [keys_cons] at h
      rw [contains_cons]
      by_cases hk : k = a
      · rw [if_pos hk]
      · rw [if_neg hk]
        rcases List.mem_cons.mp h with h' | h'
        · exact absurd h'.symm hk
        · exact ih h'

theorem mem_keys_of_contains (d : PDict α β) (a : α) (h : d.contains a = true) :
    a ∈ d.keys := by
  by_contra hmem
  induction d with
  | nil => simp [contains, get?] at h
  | cons kv rest ih =>
      obtain ⟨k, v⟩ := kv
      rw [contains_cons] at h
      rw [keys_cons] at hmem
      by_cases hk : k = a
      · exact hmem (List.mem_cons.mpr (Or.inl hk.symm))
      · rw [if_neg hk] at h
        exact ih h (fun hm => hmem (List.mem_cons.mpr (Or.inr hm)))

theorem keys_insert_of_contains (d : PDict α β) (a : α) (b : β)
    (h : d.contains a = true) : (d.insert a b).keys = d.keys := by
  induction d with
  | nil => simp [contains, get?] at h
  | cons kv rest ih =>
      obtain ⟨k, v⟩ := kv
      rw [insert_cons]
      rw [contains_cons] at h
      by_cases hk : k = a
      · rw [if_pos hk, keys_cons, keys_cons, hk]
      · rw [if_neg hk] at h
        rw [if_neg hk, keys_cons, keys_cons, ih h]

theorem keys_insert_of_not_contains (d : PDict α β) (a : α) (b : β)
    (h : d.contains a = false) : (d.insert a b).keys = d.keys ++ [a] := by
  induction d with
  | nil => simp [insert, keys]
  | cons kv rest ih =>
      obtain ⟨k, v⟩ := kv
      rw [insert_cons]
      rw [contains_cons] at h
      by_cases hk : k = a
      · rw [if_pos hk] at h
        exact absurd h (by simp)
      · rw [if_neg hk] at h
        rw [if_neg hk, keys_cons, keys_cons, ih h]
        rfl

theorem nodupKeys_insert (d : PDict α β) (a : α) (b : β) (h : d.NodupKeys) :
    (d.insert a b).NodupKeys := by
  unfold NodupKeys
  by_cases hc : d.contains a = true
  · rw [keys_insert_of_contains d a b hc]; exact h
  · have hc' : d.contains a = false := by simpa using hc
    rw [keys_insert_of_not_contains d a b hc']
    have ha : a ∉ d.keys := fun hm => by
      rw [contains_of_mem_keys d a hm] at hc'
      exact Bool.noConfusion hc'
    refine List.Nodup.append h (List.nodup_singleton a) ?_
    intro x hx hx'
    rw [List.mem_singleton] at hx'
    subst hx'
    exact ha hx

theorem get?_eq_none_of_not_mem_keys (d : PDict α β) (a : α)
    (h : a ∉ d.keys) : d.get? a = none := by
  induction d with
  | nil => rfl
  | cons kv rest ih =>
      obtain ⟨k, v⟩ := kv
      rw [keys_cons] at h
      rw [get?_cons]
      rw [if_neg (fun hk => h (List.mem_cons.mpr (Or.inl hk.symm)))]
      exact ih (fun hm => h (List.mem_cons.mpr (Or.inr hm)))

theorem mem_keys_of_get?_eq_some (d : PDict α β) (a : α) (b : β)
    (h : d.get? a = some b) : a ∈ d.keys := by
  by_contra hmem
  rw [get?_eq_none_of_not_mem_keys d a hmem] at h
  exact Option.noConfusion h

theorem get?_of_mem_nodup (d : PDict α β) (a : α) (b : β)
    (hnd : d.NodupKeys) (h : (a, b) ∈ d.entries) : d.get? a = some b := by
  induction d with
  | nil => simp [entries] at h
  | cons kv rest ih =>
      obtain ⟨k, v⟩ := kv
      rw [get?_cons]
      rcases List.mem_cons.mp h with h' | h'
      · obtain ⟨hk, hv⟩ := Prod.mk.injEq a b k v ▸ h'
        rw [if_pos hk.symm, ← hv]
      · have hnd' : NodupKeys rest := (List.nodup_cons.mp hnd).2
        have hrest := ih hnd' h'
        have hk : k ≠ a := by
          intro he
          have hmem := mem_keys_of_get?_eq_some rest a b hrest
          have hni := (List.nodup_cons.mp hnd).1
          rw [he] at hni
          exact hni hmem
        rw [if_neg hk]
        exact hrest

theorem mem_of_get?_eq_some (d : PDict α β) (a : α) (b : β)
    (h : d.get? a = some b) : (a, b) ∈ d.entries := by
  induction d with
  | nil => simp [get?] at h
  | cons kv rest ih =>
      obtain ⟨k, v⟩ := kv
      rw [get?_cons] at h
      by_cases hk : k = a
      · rw [if_pos hk] at h
        exact List.mem_cons.mpr (Or.inl (by rw [hk, Option.some.inj h]))
      · rw [if_neg hk] at h
        exact List.mem_cons.mpr (Or.inr (ih h))


end PDict

/-! ## C7: overlapping application-key resolution -/

/-- C7: `possible_application_names_application_key("foo-production")`
returns exactly the set of four names {foo, app-foo, foo-production,
app-foo-production}: the original key, the `app-`-prefixed variant, and
both with the environment suffix stripped. -/
theorem possible_application_names_foo_production :
    List.Perm (possible_application_names_application_key "foo-production")
        ["foo", "app-foo", "foo-production", "app-foo-production"]
    ∧ (possible_application_names_application_key "foo-production").Nodup := by
  constructor
  · decide
  · decide

/-! ## C8: exact integer bounds -/

/-- C8: the Int checker accepts exactly the ints in [-2^31, 2^31) — in
particular accepts 2^31 - 1 and rejects 2^31 — and the Byte checker rejects
every value that is not a Python int (bools being ints in Python) and every
int outside [-2^7, 2^7). -/
theorem int_byte_bounds_exact :
    is_allowed GremlinType.Int (.vInt (2 ^ 31 - 1)) = true
    ∧ is_allowed GremlinType.Int (.vInt (2 ^ 31)) = false
    ∧ (∀ n : Int, is_allowed GremlinType.Int (.vInt n) = true ↔ -(2 ^ 31) ≤ n ∧ n < 2 ^ 31)
    ∧ (∀ v : Value, pyIntVal v = none → is_allowed GremlinType.Byte v = false)
    ∧ (∀ n : Int, is_allowed GremlinType.Byte (.vInt n) = true ↔ -(2 ^ 7) ≤ n ∧ n < 2 ^ 7) := by
  refine ⟨by decide, by decide, ?_, ?_, ?_⟩
  · intro n
    simp [is_allowed, pyIntVal]
  · intro v hv
    cases v <;> simp [pyIntVal] at hv ⊢ <;> simp [is_allowed, pyIntVal]
  · intro n
    simp [is_allowed, pyIntVal]

theorem int_byte_bounds_exact_witness :
    is_allowed GremlinType.Byte (.vStr "x") = false :=
  int_byte_bounds_exact.2.2.2.1 (.vStr "x") rfl

/-! ## C9: Date scalar type -/

/-- C9: the Date type rejects every datetime carrying zone information, and
formats every accepted value per the zone-free spec rendering: accepted
(necessarily naive) datetimes at second precision, plain dates at
calendar-day precision; the rendering is independent of the microsecond
field. -/
theorem date_zone_free_second_precision :
    (∀ dt : DateTimeV, dt.hasTz = true → is_allowed GremlinType.Date (.vDateTime dt) = false)
    ∧ (∀ v : Value, is_allowed GremlinType.Date v = true →
        gremlin_format GremlinType.Date v = .ok (dateFormatSpec v))
    ∧ (∀ dt : DateTimeV, gremlin_format GremlinType.Date (.vDateTime dt)
        = gremlin_format GremlinType.Date (.vDateTime { dt with microsecond := 0 })) := by
  refine ⟨?_, ?_, ?_⟩
  · intro dt h
    simp [is_allowed, h]
  · intro v hv
    cases v <;> simp [is_allowed] at hv <;>
      simp [gremlin_format, is_allowed, gremlinDateFormat, isoDateTimeSeconds, isoDate,
            dateFormatSpec, hv]
  · intro dt
    by_cases h : dt.hasTz <;>
      simp [gremlin_format, is_allowed, gremlinDateFormat, isoDateTimeSeconds, h]

theorem date_zone_free_second_precision_witness :
    is_allowed GremlinType.Date
      (.vDateTime ⟨2020, 1, 2, 3, 4, 5, 6, true⟩) = false :=
  date_zone_free_second_precision.1 ⟨2020, 1, 2, 3, 4, 5, 6, true⟩ rfl

/-! ## C6: the shard single-assignment lifecycle -/

/-- C6: the shard may be set explicitly before first use; every read after
the first returns the same cached value and leaves the state fixed; setting
after any read fails with the fatal usage error and leaves the stored shard
unchanged. -/
theorem shard_set_once_then_frozen :
    (∀ (st : ShardState) (s : Option String), st.used = false →
        shard_set_explicitly s st = ({ shard := s, used := false }, .ok ()))
    ∧ (∀ st : ShardState,
        (get_shard st).1 = st.shard
        ∧ (get_shard (get_shard st).2).1 = (get_shard st).1
        ∧ (get_shard (get_shard st).2).2 = (get_shard st).2)
    ∧ (∀ (st : ShardState) (s : Option String), st.used = true →
        (shard_set_explicitly s st).1 = st
        ∧ (shard_set_explicitly s st).2
            = .error "can only shard_set_explicitly if it has not been used yet.") := by
  refine ⟨?_, ?_, ?_⟩
  · intro st s h
    simp [shard_set_explicitly, h]
  · intro st
    simp [get_shard]
  · intro st s h
    simp [shard_set_explicitly, h]

theorem shard_set_once_then_frozen_witness :
    shard_set_explicitly (some "s1") ⟨none, false⟩
      = ({ shard := some "s1", used := false }, .ok ()) :=
  shard_set_once_then_frozen.1 ⟨none, false⟩ (some "s1") rfl

/-! ## C10: write_csv with no used columns -/

theorem write_csv_collect_nil :
    ∀ (e : FormattedEntity) (acc : List String),
      (∀ kv ∈ e, kv.2 = (none : Option String)) →
      e.foldl
        (fun acc kv =>
          match kv.2 with
          | some _ => if kv.1 ∈ acc then acc else acc ++ [kv.1]
          | none => acc)
        acc = acc := by
  intro e
  induction e with
  | nil => intro acc _; rfl
  | cons kv rest ih =>
      intro acc h
      have hkv := h kv (List.mem_cons_self kv rest)
      simp only [List.foldl_cons, hkv]
      exact ih acc (fun kv' hm => h kv' (List.mem_cons_of_mem _ hm))

/-- C10: when no property name carries a non-None value in any formatted
entity (for example, an empty entity collection), `write_csv` writes
nothing at all — no header row and no data rows. -/
theorem write_csv_empty_names_writes_nothing :
    ∀ (properties : PropertiesMap) (entities : List FormattedEntity),
      (∀ e ∈ entities, ∀ kv ∈ e, kv.2 = (none : Option String)) →
      write_csv properties entities = .ok [] := by
  intro props ents h
  unfold write_csv
  have hset : ents.foldl
      (fun acc (e : FormattedEntity) =>
        e.foldl
          (fun acc kv =>
            match kv.2 with
            | some _ => if kv.1 ∈ acc then acc else acc ++ [kv.1]
            | none => acc)
          acc)
      ([] : List String) = [] := by
    have hgen : ∀ (l : List FormattedEntity) (acc : List String),
        (∀ e ∈ l, ∀ kv ∈ e, kv.2 = (none : Option String)) →
        l.foldl
          (fun acc (e : FormattedEntity) =>
            e.foldl
              (fun acc kv =>
                match kv.2 with
                | some _ => if kv.1 ∈ acc then acc else acc ++ [kv.1]
                | none => acc)
              acc)
          acc = acc := by
      intro l
      induction l with
      | nil => intro acc _; rfl
      | cons e rest ih =>
          intro acc hh
          simp only [List.foldl_cons]
          rw [write_csv_collect_nil e acc (hh e (List.mem_cons_self e rest))]
          exact ih acc (fun e' hm => hh e' (List.mem_cons_of_mem _ hm))
    exact hgen ents [] h
  rw [hset]
  simp [sortStrings]

theorem write_csv_empty_names_writes_nothing_witness :
    write_csv PDict.nil [] = .ok [] :=
  write_csv_empty_names_writes_nothing PDict.nil [] (by intro e he; cases he)

/-! ## C1: edge expiration -/

/-- C1 counterexample: with one previously existing OWNER edge whose id
`"E"` was not re-created in this run (it is absent from `entities`), the
claimed stale-edge removal path executes `del entities[edge_type][entity_id]`
on a missing key and the call raises `KeyError` instead of completing: the
claim that the call completes without error regardless of whether stale ids
are present in `entities` is false. -/
theorem expire_previously_existing_keyerror :
    expire_previously_existing [OwnerET] PDict.nil
      [(OwnerET, [([], [("~id", Value.vStr "E")])])]
      = .error "KeyError" := by rfl

theorem exceptBindOk {α β : Type} (a : α) (f : α → Except String β) :
    (Except.ok a >>= f) = f a := rfl

theorem exceptBindErr {α β : Type} (msg : String) (f : α → Except String β) :
    ((Except.error msg : Except String α) >>= f) = Except.error msg := rfl

theorem expireForType_ok_eq (d : PDict Value Entity) :
    ∀ (l : List (ExistingKey × Entity)) (out : PDict Value Entity),
      expireForType d l = .ok out → out = d := by
  intro l
  induction l with
  | nil => intro out h; cases h; rfl
  | cons kv rest ih =>
      intro out h
      obtain ⟨k, ev⟩ := kv
      unfold expireForType at h
      split at h
      · cases h
      · rename_i idv _
        split at h
        · exact ih out h
        · rename_i hc
          unfold pyDel at h
          rw [if_neg hc] at h
          rw [exceptBindErr] at h
          cases h

theorem expireForType_ok_of_recreated (d : PDict Value Entity) :
    ∀ (l : List (ExistingKey × Entity)),
      (∀ kv ∈ l, ∃ v, kv.2.get? "~id" = some v ∧ d.contains v = true) →
      expireForType d l = .ok d := by
  intro l
  induction l with
  | nil => intro _; rfl
  | cons kv rest ih =>
      intro h
      obtain ⟨v, hv, hc⟩ := h kv (List.mem_cons_self kv rest)
      obtain ⟨k, ev⟩ := kv
      unfold expireForType
      rw [hv]
      simp only [hc, if_true]
      exact ih (fun kv' hm => h kv' (List.mem_cons_of_mem _ hm))

theorem expireTypes_ok_pointwise :
    ∀ (ets : List GraphEntityType) (ents : EntitiesMap) (exts : ExistingMap)
      (out : EntitiesMap),
      expireTypes ets ents exts = .ok out →
      ∀ (t : GraphEntityType) (idv : Value),
        PDict.get? (PDict.getD out t PDict.nil) idv
          = PDict.get? (PDict.getD ents t PDict.nil) idv := by
  intro ets
  induction ets with
  | nil => intro ents exts out h t idv; cases h; rfl
  | cons t0 rest ih =>
      intro ents exts out h t idv
      unfold expireTypes at h
      cases hper : expireForType (PDict.getD ents t0 PDict.nil)
          (PDict.entries (PDict.getD exts t0 PDict.nil)) with
      | error e => rw [hper] at h; rw [exceptBindErr] at h; cases h
      | ok perType =>
          rw [hper] at h
          simp only [exceptBindOk] at h
          have hper' : perType = PDict.getD ents t0 PDict.nil :=
            expireForType_ok_eq _ _ _ hper
          have hstep := ih (PDict.insert ents t0 perType) exts out h t idv
          rw [hstep]
          by_cases ht : t0 = t
          · subst ht
            unfold PDict.getD
            rw [PDict.get?_insert_self, hper']
            rfl
          · unfold PDict.getD
            rw [PDict.get?_insert_ne _ _ _ _ ht]

theorem expireTypes_ok_of_recreated :
    ∀ (ets : List GraphEntityType) (ents : EntitiesMap) (exts : ExistingMap),
      (∀ t ∈ ets, ∀ kv ∈ PDict.entries (PDict.getD exts t PDict.nil),
        ∃ v, kv.2.get? "~id" = some v
          ∧ PDict.contains (PDict.getD ents t PDict.nil) v = true) →
      ∃ out, expireTypes ets ents exts = .ok out := by
  intro ets
  induction ets with
  | nil => intro ents exts _; exact ⟨ents, rfl⟩
  | cons t0 rest ih =>
      intro ents exts h
      have h0 := expireForType_ok_of_recreated (PDict.getD ents t0 PDict.nil)
        (PDict.entries (PDict.getD exts t0 PDict.nil)) (h t0 (List.mem_cons_self t0 rest))
      have hrest : ∀ t ∈ rest, ∀ kv ∈ PDict.entries (PDict.getD exts t PDict.nil),
          ∃ v, kv.2.get? "~id" = some v
            ∧ PDict.contains
                (PDict.getD (PDict.insert ents t0 (PDict.getD ents t0 PDict.nil)) t PDict.nil)
                v = true := by
        intro t ht kv hkv
        obtain ⟨v, hv, hc⟩ := h t (List.mem_cons_of_mem _ ht) kv hkv
        refine ⟨v, hv, ?_⟩
        by_cases h0' : t0 = t
        · subst h0'
          unfold PDict.getD
          rw [PDict.get?_insert_self]
          exact hc
        · unfold PDict.getD
          rw [PDict.get?_insert_ne _ _ _ _ h0']
          exact hc
      obtain ⟨out, hout⟩ := ih (PDict.insert ents t0 (PDict.getD ents t0 PDict.nil)) exts hrest
      refine ⟨out, ?_⟩
      unfold expireTypes
      rw [h0]
      simpa using hout

/-- C1 (amended): for each edge type, edges of `existing[type]` whose id
was re-created in this run are left untouched, but an edge whose id was not
re-created makes the call raise `KeyError` (the `del` of a missing key)
instead of removing it — the function never removes anything, and it
completes without error exactly when every previously existing edge id is
again a key of `entities[type]`. -/
theorem expire_previously_existing_amended :
    (∀ (ets : List GraphEntityType) (ents : EntitiesMap) (exts : ExistingMap)
       (out : EntitiesMap),
       expire_previously_existing ets ents exts = .ok out →
       ∀ (t : GraphEntityType) (idv : Value),
         PDict.get? (PDict.getD out t PDict.nil) idv
           = PDict.get? (PDict.getD ents t PDict.nil) idv)
    ∧ (∀ (ets : List GraphEntityType) (ents : EntitiesMap) (exts : ExistingMap),
       (∀ t ∈ ets, t.kind = GKind.edge) →
       (∀ t ∈ ets, ∀ kv ∈ PDict.entries (PDict.getD exts t PDict.nil),
         ∃ v, kv.2.get? "~id" = some v
           ∧ PDict.contains (PDict.getD ents t PDict.nil) v = true) →
       ∃ out, expire_previously_existing ets ents exts = .ok out) := by
  constructor
  · intro ets ents exts out h t idv
    unfold expire_previously_existing at h
    by_cases hall : ets.all (fun t => t.kind == GKind.edge) = true
    · rw [if_pos hall] at h
      exact expireTypes_ok_pointwise ets ents exts out h t idv
    · rw [if_neg hall] at h
      cases h
  · intro ets ents exts hkind h
    have hall : ets.all (fun t => t.kind == GKind.edge) = true := by
      rw [List.all_eq_true]
      intro t ht
      rw [beq_iff_eq]
      exact hkind t ht
    unfold expire_previously_existing
    rw [if_pos hall]
    exact expireTypes_ok_of_recreated ets ents exts h

theorem expire_previously_existing_amended_witness :
    ∃ out, expire_previously_existing [OwnerET]
      [(OwnerET, [(Value.vStr "E", [("~id", Value.vStr "E")])])]
      [(OwnerET, [([], [("~id", Value.vStr "E")])])] = .ok out :=
  expire_previously_existing_amended.2 _ _ _
    (by intro t ht; rw [List.mem_singleton] at ht; subst ht; rfl)
    (by
      intro t ht kv hkv
      rw [List.mem_singleton] at ht
      subst ht
      have hent : PDict.entries (PDict.getD
          ([(OwnerET, [([], [("~id", Value.vStr "E")])])] : ExistingMap)
          OwnerET PDict.nil) = [([], [("~id", Value.vStr "E")])] := by rfl
      rw [hent] at hkv
      rw [List.mem_singleton] at hkv
      subst hkv
      exact ⟨Value.vStr "E", rfl, by rfl⟩)

/-! ## C5: first entity wins -/

theorem exceptPure {α : Type} (a : α) : (pure a : Except String α) = .ok a := rfl

/-- after a successful `_create`, ENTITIES is either untouched (the id was
taken, the stored entity is returned) or extended at a previously absent
id with the freshly created entity (which is returned). -/
theorem GetGraph_create_shape (t : GraphEntityType) (ents : EntitiesMap)
    (exts : ExistingMap) (kwargs : Entity) (res : CreateResult)
    (h : GetGraph_create t ents exts kwargs = .ok res) :
    (res.entities = ents
      ∧ ∃ v, PDict.get? (PDict.getD ents t PDict.nil) v = some res.entity)
    ∨ (∃ idv entity, PDict.get? (PDict.getD ents t PDict.nil) idv = none
        ∧ res.entity = entity
        ∧ res.entities
            = PDict.insert ents t
                (PDict.insert (PDict.getD ents t PDict.nil) idv entity)) := by
  unfold GetGraph_create at h
  cases hek : get_existing_key t kwargs with
  | error e => rw [hek] at h; rw [exceptBindErr] at h; cases h
  | ok ek =>
      rw [hek] at h
      simp only [exceptBindOk] at h
      split at h
      · -- the existing key was previously persisted
        rename_i ex hex
        cases hkp : get_key_properties t with
        | error e => rw [hkp] at h; cases h
        | ok kp =>
            rw [hkp] at h
            simp only [exceptBindOk] at h
            cases htc : type_create t
                (List.foldl
                  (fun acc kv =>
                    if kv.1 ∈ List.map Property.name kp then PDict.insert acc kv.1 kv.2
                    else acc)
                  kwargs ex) with
            | error e => rw [htc] at h; cases h
            | ok e =>
                rw [htc] at h
                simp only [exceptBindOk, exceptPure] at h
                split at h
                · rename_i stored hst
                  cases h
                  exact Or.inl ⟨rfl, ⟨_, hst⟩⟩
                · rename_i hnone
                  cases h
                  exact Or.inr ⟨_, _, hnone, rfl, rfl⟩
      · cases htc : type_create t kwargs with
        | error e => rw [htc] at h; cases h
        | ok e =>
            rw [htc] at h
            simp only [exceptBindOk, exceptPure] at h
            split at h
            · rename_i stored hst
              cases h
              exact Or.inl ⟨rfl, ⟨_, hst⟩⟩
            · rename_i hnone
              cases h
              exact Or.inr ⟨_, _, hnone, rfl, rfl⟩

/-- C5: the first entity stored under an id is never overwritten by later
`_create` calls (any pre-existing ENTITIES entry survives every successful
call unchanged); concretely, creating the same Table vertex id three times
with differing unrelated `display_name` values succeeds every time, stores
exactly one entity (the first), logs exactly two inconsistency messages,
and returns the originally stored entity from the second and third calls. -/
theorem first_entity_wins :
    (∀ (t : GraphEntityType) (ents : EntitiesMap) (exts : ExistingMap)
       (kwargs : Entity) (res : CreateResult),
       GetGraph_create t ents exts kwargs = .ok res →
       ∀ (v : Value) (stored : Entity),
         PDict.get? (PDict.getD ents t PDict.nil) v = some stored →
         PDict.get? (PDict.getD res.entities t PDict.nil) v = some stored)
    ∧ (∃ r1 r2 r3 : CreateResult,
        GetGraph_create TableVT PDict.nil PDict.nil
          [("key", .vStr "K"), ("name", .vStr "N"), ("display_name", .vStr "a")] = .ok r1
        ∧ GetGraph_create TableVT r1.entities r1.existing
          [("key", .vStr "K"), ("name", .vStr "N"), ("display_name", .vStr "b")] = .ok r2
        ∧ GetGraph_create TableVT r2.entities r2.existing
          [("key", .vStr "K"), ("name", .vStr "N"), ("display_name", .vStr "c")] = .ok r3
        ∧ r1.logs = [] ∧ r2.logs.length = 1 ∧ r3.logs.length = 1
        ∧ r2.entity = r1.entity ∧ r3.entity = r1.entity
        ∧ PDict.getD r3.entities TableVT PDict.nil = [(.vStr "Table:K", r1.entity)]
        ∧ PDict.get? r1.entity "display_name" = some (.vStr "a")) := by
  constructor
  · intro t ents exts kwargs res h v stored hv
    rcases GetGraph_create_shape t ents exts kwargs res h with
      ⟨hents, -⟩ | ⟨idv, entity, hnone, -, hents⟩
    · rw [hents]; exact hv
    · rw [hents]
      unfold PDict.getD
      rw [PDict.get?_insert_self]
      simp only [Option.getD_some]
      by_cases hvi : idv = v
      · subst hvi
        rw [hv] at hnone
        cases hnone
      · rw [PDict.get?_insert_ne _ _ _ _ hvi]
        exact hv
  · refine ⟨_, _, _, rfl, rfl, rfl, ?_, ?_, ?_, ?_, ?_, ?_, ?_⟩ <;> rfl

theorem first_entity_wins_witness :
    ∃ res, GetGraph_create TableVT
        [(TableVT, [(Value.vStr "X", [("~id", Value.vStr "X")])])] PDict.nil
        [("key", .vStr "K"), ("name", .vStr "N")] = .ok res
      ∧ PDict.get? (PDict.getD res.entities TableVT PDict.nil) (Value.vStr "X")
          = some [("~id", Value.vStr "X")] :=
  ⟨_, rfl,
    first_entity_wins.1 TableVT
      [(TableVT, [(Value.vStr "X", [("~id", Value.vStr "X")])])] PDict.nil
      [("key", .vStr "K"), ("name", .vStr "N")] _ rfl (Value.vStr "X") _ rfl⟩

/-! ## C3: the conflict split -/

/-- C3 counterexample: on `[A, B, C, D]`, where `p` is declared String by A
but Int by B and C and `D` is untouched by the conflict, the per-signature
groups are `[A]` (size 1) and `[B, C]` (size 2); the split folds the
untouched `D` into the *smallest* group (`sorted(..., key=len)[0]`), giving
`[[A, D], [B, C]]`, not into the largest group `[B, C]` as claimed. -/
theorem trySplit_folds_into_smallest_cex :
    trySplit (some GremlinCardinality.single) [typeA, typeB, typeC, typeD]
        = some (.ok [[typeA, typeD], [typeB, typeC]])
    ∧ [typeA].length < [typeB, typeC].length
    ∧ typeD ∉ [typeB, typeC] := by
  refine ⟨by rfl, by decide, by decide⟩

theorem insertByLen_perm (x : List GraphEntityType) :
    ∀ l, List.Perm (insertByLen x l) (x :: l) := by
  intro l
  induction l with
  | nil => exact List.Perm.refl _
  | cons y rest ih =>
      unfold insertByLen
      by_cases h : rest.length ≤ x.length
      all_goals by_cases h' : y.length ≤ x.length
      all_goals simp only [h', if_true, if_false, ite_true, ite_false]
      · exact List.Perm.trans (List.Perm.cons y ih) (List.Perm.swap x y rest)
      · exact List.Perm.refl _
      · exact List.Perm.trans (List.Perm.cons y ih) (List.Perm.swap x y rest)
      · exact List.Perm.refl _

theorem insertByLen_pairwise (x : List GraphEntityType) :
    ∀ l, List.Pairwise (fun a b : List GraphEntityType => a.length ≤ b.length) l →
      List.Pairwise (fun a b : List GraphEntityType => a.length ≤ b.length)
        (insertByLen x l) := by
  intro l
  induction l with
  | nil => intro _; exact List.pairwise_singleton _ _
  | cons y rest ih =>
      intro hp
      obtain ⟨hy, hrest⟩ := List.pairwise_cons.mp hp
      unfold insertByLen
      by_cases h' : y.length ≤ x.length
      · rw [if_pos h']
        refine List.pairwise_cons.mpr ⟨?_, ih hrest⟩
        intro z hz
        have hz' := (insertByLen_perm x rest).mem_iff.mp hz
        rcases List.mem_cons.mp hz' with hz' | hz'
        · subst hz'; exact h'
        · exact hy z hz'
      · rw [if_neg h']
        push_neg at h'
        refine List.pairwise_cons.mpr ⟨?_, hp⟩
        intro z hz
        rcases List.mem_cons.mp hz with hz | hz
        · subst hz; exact Nat.le_of_lt h'
        · exact Nat.le_trans (Nat.le_of_lt h') (hy z hz)

theorem sortByLen_perm_aux :
    ∀ (l acc : List (List GraphEntityType)),
      List.Perm (l.foldl (fun acc x => insertByLen x acc) acc) (acc ++ l) := by
  intro l
  induction l with
  | nil => intro acc; simp
  | cons x rest ih =>
      intro acc
      simp only [List.foldl_cons]
      refine List.Perm.trans (ih (insertByLen x acc)) ?_
      have h1 : List.Perm (insertByLen x acc ++ rest) ((x :: acc) ++ rest) :=
        List.Perm.append_right rest (insertByLen_perm x acc)
      refine List.Perm.trans h1 ?_
      simp only [List.cons_append]
      refine List.Perm.trans (List.Perm.symm (List.perm_middle)) ?_
      exact List.Perm.refl _

theorem sortByLen_perm (l : List (List GraphEntityType)) :
    List.Perm (sortByLen l) l := by
  have := sortByLen_perm_aux l []
  simpa [sortByLen] using this

theorem sortByLen_pairwise (l : List (List GraphEntityType)) :
    List.Pairwise (fun a b : List GraphEntityType => a.length ≤ b.length)
      (sortByLen l) := by
  suffices h : ∀ (l acc : List (List GraphEntityType)),
      List.Pairwise (fun a b : List GraphEntityType => a.length ≤ b.length) acc →
      List.Pairwise (fun a b : List GraphEntityType => a.length ≤ b.length)
        (l.foldl (fun acc x => insertByLen x acc) acc) by
    exact h l [] List.Pairwise.nil
  intro l
  induction l with
  | nil => intro acc h; simpa using h
  | cons x rest ih =>
      intro acc h
      simp only [List.foldl_cons]
      exact ih (insertByLen x acc) (insertByLen_pairwise x acc h)

/-- C3 (amended): when `_try` finds a conflicting property name (the first
conflicting name in accumulator order), it builds one group per distinct
signature of that property, and every type not touched by the conflict is
folded into the group the stable by-length sort put first — a group of
*minimal* size among the per-signature groups (`sorted(..., key=len)[0]`),
not the largest — before recursing on each group. -/
theorem trySplit_one_group_per_signature_folds_smallest :
    ∀ (dc : Option GremlinCardinality) (ts : List GraphEntityType)
      (groups : List (List GraphEntityType)),
      trySplit dc ts = some (.ok groups) →
      ∃ (nameSigs : String × List Signature) (g0 : List GraphEntityType)
        (gs : List (List GraphEntityType)),
        (buildSigMaps dc ts).1.entries.find? (fun kv => kv.2.length ≠ 1) = some nameSigs
        ∧ sortByLen (nameSigs.2.map fun s => PDict.getD (buildSigMaps dc ts).2 s [])
            = g0 :: gs
        ∧ List.Perm (g0 :: gs)
            (nameSigs.2.map fun s => PDict.getD (buildSigMaps dc ts).2 s [])
        ∧ groups
            = (g0 ++ ts.filter (fun t => t ∉ (g0 :: gs).foldl (· ++ ·) [])) :: gs
        ∧ ∀ g ∈ g0 :: gs, g0.length ≤ g.length := by
  intro dc ts groups h
  unfold trySplit at h
  cases hfind : ((buildSigMaps dc ts).1.entries.find? (fun kv => kv.2.length ≠ 1)) with
  | none => rw [hfind] at h; cases h
  | some nameSigs =>
      rw [hfind] at h
      rw [Option.some.injEq] at h
      split at h
      · split at h
        · split at h
          · cases h
          · rename_i g0 gs hsort
            have hsort' : sortByLen
                (nameSigs.2.map fun s => PDict.getD (buildSigMaps dc ts).2 s [])
                = g0 :: gs := by
              have hs := hsort
              unfold overlappingTypesOf at hs
              exact hs
            split at h
            · rw [Except.ok.injEq] at h
              refine ⟨nameSigs, g0, gs, rfl, hsort', ?_, ?_, ?_⟩
              · rw [← hsort']
                exact sortByLen_perm _
              · rw [← h]
                simp only [otherTypesOf, hsort]
              · have hpw : List.Pairwise
                    (fun a b : List GraphEntityType => a.length ≤ b.length)
                    (overlappingTypesOf dc ts nameSigs) := by
                  unfold overlappingTypesOf
                  exact sortByLen_pairwise _
                rw [hsort] at hpw
                intro g hg
                rcases List.mem_cons.mp hg with hg | hg
                · subst hg; exact Nat.le_refl _
                · exact (List.pairwise_cons.mp hpw).1 g hg
            · cases h
        · cases h
      · cases h

theorem trySplit_one_group_per_signature_folds_smallest_witness :
    ∃ (nameSigs : String × List Signature) (g0 : List GraphEntityType)
      (gs : List (List GraphEntityType)),
      (buildSigMaps (some GremlinCardinality.single)
          [typeA, typeB, typeC, typeD]).1.entries.find? (fun kv => kv.2.length ≠ 1)
        = some nameSigs
      ∧ sortByLen (nameSigs.2.map fun s =>
          PDict.getD (buildSigMaps (some GremlinCardinality.single)
            [typeA, typeB, typeC, typeD]).2 s []) = g0 :: gs
      ∧ List.Perm (g0 :: gs)
          (nameSigs.2.map fun s =>
            PDict.getD (buildSigMaps (some GremlinCardinality.single)
              [typeA, typeB, typeC, typeD]).2 s [])
      ∧ [[typeA, typeD], [typeB, typeC]]
          = (g0 ++ [typeA, typeB, typeC, typeD].filter
              (fun t => t ∉ (g0 :: gs).foldl (· ++ ·) [])) :: gs
      ∧ ∀ g ∈ g0 :: gs, g0.length ≤ g.length :=
  trySplit_one_group_per_signature_folds_smallest
    (some GremlinCardinality.single) [typeA, typeB, typeC, typeD]
    [[typeA, typeD], [typeB, typeC]] rfl

/-! ## C2: partition covering, disjointness, and separation -/

theorem PDict.entries_insert_sub {α β : Type} [DecidableEq α]
    (d : PDict α β) (a : α) (b : β) :
    ∀ kv ∈ (d.insert a b).entries, kv = (a, b) ∨ kv ∈ d.entries := by
  induction d with
  | nil => intro kv hkv; simp [PDict.insert, PDict.entries] at hkv; simp [hkv]
  | cons kv0 rest ih =>
      intro kv hkv
      obtain ⟨k, v⟩ := kv0
      rw [PDict.insert_cons] at hkv
      by_cases hk : k = a
      · rw [if_pos hk] at hkv
        rcases List.mem_cons.mp hkv with hkv | hkv
        · exact Or.inl hkv
        · exact Or.inr (List.mem_cons_of_mem _ hkv)
      · rw [if_neg hk] at hkv
        rcases List.mem_cons.mp hkv with hkv | hkv
        · exact Or.inr (List.mem_cons.mpr (Or.inl hkv))
        · rcases ih kv hkv with h | h
          · exact Or.inl h
          · exact Or.inr (List.mem_cons_of_mem _ h)

theorem PDict.getD_mem_entries {α β : Type} [DecidableEq α]
    (d : PDict α β) (a : α) (dflt : β)
    (h : PDict.getD d a dflt ≠ dflt) : (a, PDict.getD d a dflt) ∈ d.entries := by
  unfold PDict.getD at h ⊢
  cases hg : d.get? a with
  | none => rw [hg] at h; simp at h
  | some l =>
      simpa using PDict.mem_of_get?_eq_some d a l hg

theorem foldl_append_eq_flatten :
    ∀ (L : List (List GraphEntityType)) (acc : List GraphEntityType),
      L.foldl (· ++ ·) acc = acc ++ L.flatten := by
  intro L
  induction L with
  | nil => intro acc; simp
  | cons x rest ih =>
      intro acc
      simp only [List.foldl_cons, List.flatten_cons]
      rw [ih (acc ++ x), List.append_assoc]

theorem foldl_len_eq_flatten :
    ∀ (L : List (List GraphEntityType)) (n : Nat),
      L.foldl (fun n g => n + g.length) n = n + L.flatten.length := by
  intro L
  induction L with
  | nil => intro n; simp
  | cons x rest ih =>
      intro n
      simp only [List.foldl_cons, List.flatten_cons]
      rw [ih (n + x.length), List.length_append]
      omega

theorem mem_length_le_flatten :
    ∀ (L : List (List GraphEntityType)) (g : List GraphEntityType),
      g ∈ L → g.length ≤ L.flatten.length := by
  intro L
  induction L with
  | nil => intro g hg; cases hg
  | cons x rest ih =>
      intro g hg
      simp only [List.flatten_cons, List.length_append]
      rcases List.mem_cons.mp hg with hg | hg
      · subst hg; omega
      · have := ih g hg; omega

theorem pairwiseDisjointB_iff :
    ∀ L : List (List GraphEntityType),
      pairwiseDisjointB L = true ↔ List.Pairwise List.Disjoint L := by
  intro L
  induction L with
  | nil => simp [pairwiseDisjointB]
  | cons g rest ih =>
      unfold pairwiseDisjointB
      rw [Bool.and_eq_true, List.pairwise_cons, ih]
      constructor
      · rintro ⟨h1, h2⟩
        refine ⟨?_, h2⟩
        intro h hh x hx hx'
        have := List.all_eq_true.mp (List.all_eq_true.mp h1 h hh) x hx
        simp only [Bool.not_eq_true'] at this
        have hmem : x ∉ h := by simpa using this
        exact hmem hx'
      · rintro ⟨h1, h2⟩
        refine ⟨?_, h2⟩
        rw [List.all_eq_true]
        intro h hh
        rw [List.all_eq_true]
        intro x hx
        simp only [Bool.not_eq_true']
        simpa using fun hx' => h1 h hh hx hx'

theorem foldl_inv {γ δ : Type} (P : δ → Prop) (f : δ → γ → δ)
    (hstep : ∀ d x, P d → P (f d x)) :
    ∀ (l : List γ) (d : δ), P d → P (l.foldl f d) := by
  intro l
  induction l with
  | nil => intro d h; exact h
  | cons x rest ih =>
      intro d h
      simp only [List.foldl_cons]
      exact ih (f d x) (hstep d x h)

theorem foldl_establish {γ δ : Type} (P : δ → Prop) (f : δ → γ → δ) (x0 : γ)
    (hmono : ∀ d x, P d → P (f d x)) (hx0 : ∀ d, P (f d x0)) :
    ∀ (l : List γ) (d : δ), x0 ∈ l → P (l.foldl f d) := by
  intro l
  induction l with
  | nil => intro d h; cases h
  | cons x rest ih =>
      intro d h
      simp only [List.foldl_cons]
      rcases List.mem_cons.mp h with h | h
      · subst h
        exact foldl_inv P f hmono rest (f d x0) (hx0 d)
      · exact ih (f d x) h

theorem addSigByName_mono (bn : PDict String (List Signature)) (s s' : Signature)
    (name : String) (h : s ∈ PDict.getD bn name []) :
    s ∈ PDict.getD (addSigByName bn s') name [] := by
  unfold addSigByName
  by_cases hc : s' ∈ PDict.getD bn s'.name []
  · simp only [hc, if_true]
    exact h
  · simp only [hc, if_false]
    unfold PDict.getD at h ⊢
    by_cases hname : s'.name = name
    · subst hname
      rw [PDict.get?_insert_self]
      simp only [Option.getD_some]
      exact List.mem_append_left _ h
    · rw [PDict.get?_insert_ne _ _ _ _ hname]
      exact h

theorem addSigByName_self (bn : PDict String (List Signature)) (s : Signature) :
    s ∈ PDict.getD (addSigByName bn s) s.name [] := by
  unfold addSigByName
  by_cases hc : s ∈ PDict.getD bn s.name []
  · simp [hc]
  · simp only [hc, if_false]
    unfold PDict.getD
    rw [PDict.get?_insert_self]
    simp

theorem addSigByName_values_ne (bn : PDict String (List Signature)) (s : Signature)
    (h : ∀ kv ∈ bn.entries, kv.2 ≠ []) :
    ∀ kv ∈ (addSigByName bn s).entries, kv.2 ≠ [] := by
  unfold addSigByName
  by_cases hc : s ∈ PDict.getD bn s.name []
  · simp only [hc, if_true]
    exact h
  · simp only [hc, if_false]
    intro kv hkv
    rcases PDict.entries_insert_sub bn s.name (PDict.getD bn s.name [] ++ [s]) kv hkv with
      heq | hm
    · subst heq; simp
    · exact h kv hm

theorem addTypeBySig_nodup (bs : PDict Signature (List GraphEntityType))
    (s : Signature) (t : GraphEntityType)
    (h : ∀ kv ∈ bs.entries, kv.2.Nodup) :
    ∀ kv ∈ (addTypeBySig bs s t).entries, kv.2.Nodup := by
  unfold addTypeBySig
  by_cases hc : t ∈ PDict.getD bs s []
  · simp only [hc, if_true]
    exact h
  · simp only [hc, if_false]
    intro kv hkv
    rcases PDict.entries_insert_sub bs s (PDict.getD bs s [] ++ [t]) kv hkv with heq | hm
    · subst heq
      show (PDict.getD bs s [] ++ [t]).Nodup
      have hnd : (PDict.getD bs s []).Nodup := by
        by_cases hnil : PDict.getD bs s [] = []
        · rw [hnil]; exact List.nodup_nil
        · exact h _ (PDict.getD_mem_entries bs s [] hnil)
      refine List.Nodup.append hnd (List.nodup_singleton t) ?_
      intro x hx hx'
      rw [List.mem_singleton] at hx'
      subst hx'
      exact hc hx
    · exact h kv hm

theorem addTypeBySig_sub (bs : PDict Signature (List GraphEntityType))
    (s : Signature) (t : GraphEntityType) (U : List GraphEntityType)
    (h : ∀ kv ∈ bs.entries, ∀ x ∈ kv.2, x ∈ U) (ht : t ∈ U) :
    ∀ kv ∈ (addTypeBySig bs s t).entries, ∀ x ∈ kv.2, x ∈ U := by
  unfold addTypeBySig
  by_cases hc : t ∈ PDict.getD bs s []
  · simp only [hc, if_true]
    exact h
  · simp only [hc, if_false]
    intro kv hkv
    rcases PDict.entries_insert_sub bs s (PDict.getD bs s [] ++ [t]) kv hkv with heq | hm
    · subst heq
      intro x hx
      rcases List.mem_append.mp hx with hx | hx
      · by_cases hnil : PDict.getD bs s [] = []
        · rw [hnil] at hx; cases hx
        · exact h _ (PDict.getD_mem_entries bs s [] hnil) x hx
      · rw [List.mem_singleton] at hx
        subst hx
        exact ht
    · exact h kv hm

theorem buildSigMaps_inv (dc : Option GremlinCardinality) (ts : List GraphEntityType) :
    (∀ kv ∈ (buildSigMaps dc ts).1.entries, kv.2 ≠ [])
    ∧ (∀ kv ∈ (buildSigMaps dc ts).2.entries, kv.2.Nodup)
    ∧ (∀ kv ∈ (buildSigMaps dc ts).2.entries, ∀ x ∈ kv.2, x ∈ ts) := by
  have main : ∀ (l : List GraphEntityType)
      (maps : PDict String (List Signature) × PDict Signature (List GraphEntityType)),
      l ⊆ ts →
      (∀ kv ∈ maps.1.entries, kv.2 ≠ []) →
      (∀ kv ∈ maps.2.entries, kv.2.Nodup) →
      (∀ kv ∈ maps.2.entries, ∀ x ∈ kv.2, x ∈ ts) →
      (∀ kv ∈ (l.foldl
          (fun maps t =>
            t.properties.foldl
              (fun maps p =>
                let s := p.signature dc
                (addSigByName maps.1 s, addTypeBySig maps.2 s t))
              maps)
          maps).1.entries, kv.2 ≠ [])
      ∧ (∀ kv ∈ (l.foldl
          (fun maps t =>
            t.properties.foldl
              (fun maps p =>
                let s := p.signature dc
                (addSigByName maps.1 s, addTypeBySig maps.2 s t))
              maps)
          maps).2.entries, kv.2.Nodup)
      ∧ (∀ kv ∈ (l.foldl
          (fun maps t =>
            t.properties.foldl
              (fun maps p =>
                let s := p.signature dc
                (addSigByName maps.1 s, addTypeBySig maps.2 s t))
              maps)
          maps).2.entries, ∀ x ∈ kv.2, x ∈ ts) := by
    intro l
    induction l with
    | nil => intro maps _ h1 h2 h3; exact ⟨h1, h2, h3⟩
    | cons t rest ih =>
        intro maps hsub h1 h2 h3
        simp only [List.foldl_cons]
        have ht : t ∈ ts := hsub (List.mem_cons_self t rest)
        have inner : ∀ (props : List Property)
            (maps : PDict String (List Signature) × PDict Signature (List GraphEntityType)),
            (∀ kv ∈ maps.1.entries, kv.2 ≠ []) →
            (∀ kv ∈ maps.2.entries, kv.2.Nodup) →
            (∀ kv ∈ maps.2.entries, ∀ x ∈ kv.2, x ∈ ts) →
            (∀ kv ∈ (props.foldl
                (fun maps p =>
                  let s := p.signature dc
                  (addSigByName maps.1 s, addTypeBySig maps.2 s t))
                maps).1.entries, kv.2 ≠ [])
            ∧ (∀ kv ∈ (props.foldl
                (fun maps p =>
                  let s := p.signature dc
                  (addSigByName maps.1 s, addTypeBySig maps.2 s t))
                maps).2.entries, kv.2.Nodup)
            ∧ (∀ kv ∈ (props.foldl
                (fun maps p =>
                  let s := p.signature dc
                  (addSigByName maps.1 s, addTypeBySig maps.2 s t))
                maps).2.entries, ∀ x ∈ kv.2, x ∈ ts) := by
          intro props
          induction props with
          | nil => intro maps h1 h2 h3; exact ⟨h1, h2, h3⟩
          | cons p prest pih =>
              intro maps h1 h2 h3
              simp only [List.foldl_cons]
              exact pih _
                (addSigByName_values_ne _ _ h1)
                (addTypeBySig_nodup _ _ _ h2)
                (addTypeBySig_sub _ _ _ _ h3 ht)
        obtain ⟨i1, i2, i3⟩ := inner t.properties maps h1 h2 h3
        exact ih _ (fun x hx => hsub (List.mem_cons_of_mem _ hx)) i1 i2 i3
  unfold buildSigMaps
  exact main ts (PDict.nil, PDict.nil) (fun x hx => hx)
    (by intro kv hkv; cases hkv) (by intro kv hkv; cases hkv) (by intro kv hkv; cases hkv)

theorem buildSigMaps_name_complete (dc : Option GremlinCardinality)
    (ts : List GraphEntityType) :
    ∀ t ∈ ts, ∀ p ∈ t.properties,
      p.signature dc ∈ PDict.getD (buildSigMaps dc ts).1 (p.signature dc).name [] := by
  intro t ht p hp
  have inner_mono : ∀ (t' : GraphEntityType) (props : List Property)
      (maps : PDict String (List Signature) × PDict Signature (List GraphEntityType)),
      p.signature dc ∈ PDict.getD maps.1 (p.signature dc).name [] →
      p.signature dc ∈ PDict.getD (props.foldl
        (fun maps p' =>
          let s := p'.signature dc
          (addSigByName maps.1 s, addTypeBySig maps.2 s t'))
        maps).1 (p.signature dc).name [] := by
    intro t' props
    induction props with
    | nil => intro maps h; exact h
    | cons q rest ih =>
        intro maps h
        simp only [List.foldl_cons]
        exact ih _ (addSigByName_mono _ _ _ _ h)
  have inner_estab : ∀ (props : List Property)
      (maps : PDict String (List Signature) × PDict Signature (List GraphEntityType)),
      p ∈ props →
      p.signature dc ∈ PDict.getD (props.foldl
        (fun maps p' =>
          let s := p'.signature dc
          (addSigByName maps.1 s, addTypeBySig maps.2 s t))
        maps).1 (p.signature dc).name [] := by
    intro props
    induction props with
    | nil => intro maps h; cases h
    | cons q rest ih =>
        intro maps h
        simp only [List.foldl_cons]
        rcases List.mem_cons.mp h with h | h
        · subst h
          exact inner_mono t rest _ (addSigByName_self _ _)
        · exact ih _ h
  have outer_mono : ∀ (l : List GraphEntityType)
      (maps : PDict String (List Signature) × PDict Signature (List GraphEntityType)),
      p.signature dc ∈ PDict.getD maps.1 (p.signature dc).name [] →
      p.signature dc ∈ PDict.getD (l.foldl
        (fun maps t' =>
          t'.properties.foldl
            (fun maps p' =>
              let s := p'.signature dc
              (addSigByName maps.1 s, addTypeBySig maps.2 s t'))
            maps)
        maps).1 (p.signature dc).name [] := by
    intro l
    induction l with
    | nil => intro maps h; exact h
    | cons t' rest ih =>
        intro maps h
        simp only [List.foldl_cons]
        exact ih _ (inner_mono t' t'.properties maps h)
  have outer_estab : ∀ (l : List GraphEntityType)
      (maps : PDict String (List Signature) × PDict Signature (List GraphEntityType)),
      t ∈ l →
      p.signature dc ∈ PDict.getD (l.foldl
        (fun maps t' =>
          t'.properties.foldl
            (fun maps p' =>
              let s := p'.signature dc
              (addSigByName maps.1 s, addTypeBySig maps.2 s t'))
            maps)
        maps).1 (p.signature dc).name [] := by
    intro l
    induction l with
    | nil => intro maps h; cases h
    | cons t' rest ih =>
        intro maps h
        simp only [List.foldl_cons]
        rcases List.mem_cons.mp h with h | h
        · subst h
          exact outer_mono rest _ (inner_estab t.properties maps hp)
        · exact ih _ h
  unfold buildSigMaps
  exact outer_estab ts (PDict.nil, PDict.nil) ht

theorem trySplit_none_separated (dc : Option GremlinCardinality)
    (ts : List GraphEntityType) (h : trySplit dc ts = none) :
    ∀ t1 ∈ ts, ∀ t2 ∈ ts, ∀ p1 ∈ t1.properties, ∀ p2 ∈ t2.properties,
      p1.name = p2.name → p1.signature dc = p2.signature dc := by
  intro t1 ht1 t2 ht2 p1 hp1 p2 hp2 hname
  have hfind : (buildSigMaps dc ts).1.entries.find? (fun kv => kv.2.length ≠ 1)
      = none := by
    unfold trySplit at h
    cases hf : (buildSigMaps dc ts).1.entries.find? (fun kv => kv.2.length ≠ 1) with
    | none => rfl
    | some ns => rw [hf] at h; cases h
  have h1 := buildSigMaps_name_complete dc ts t1 ht1 p1 hp1
  have h2 := buildSigMaps_name_complete dc ts t2 ht2 p2 hp2
  have hnm : (p1.signature dc).name = (p2.signature dc).name := by
    simp [Property.signature, hname]
  rw [hnm] at h1
  have hne : PDict.getD (buildSigMaps dc ts).1 (p2.signature dc).name [] ≠ [] := by
    intro hl
    rw [hl] at h2
    cases h2
  have hmem := PDict.getD_mem_entries (buildSigMaps dc ts).1 (p2.signature dc).name [] hne
  have hpred := List.find?_eq_none.mp hfind _ hmem
  simp only [decide_eq_true_eq, Decidable.not_not] at hpred
  obtain ⟨a, ha⟩ := List.length_eq_one.mp hpred
  rw [ha] at h1 h2
  rw [List.mem_singleton] at h1 h2
  rw [h1, h2]

theorem trySplit_ok_cover (dc : Option GremlinCardinality) (ts : List GraphEntityType)
    (groups : List (List GraphEntityType))
    (h : trySplit dc ts = some (.ok groups)) (hnd : ts.Nodup) :
    List.Perm groups.flatten ts
    ∧ (∀ g ∈ groups, g.Nodup)
    ∧ (∀ g ∈ groups, g.length < ts.length) := by
  unfold trySplit at h
  cases hfind : (buildSigMaps dc ts).1.entries.find? (fun kv => kv.2.length ≠ 1) with
  | none => rw [hfind] at h; cases h
  | some nameSigs =>
      rw [hfind, Option.some.injEq] at h
      split at h
      · rename_i hdisjB
        split at h
        · rename_i hotherB
          split at h
          · cases h
          · rename_i g0 gs hsort
            split at h
            · rename_i hsum
              rw [Except.ok.injEq] at h
              have hperm0 : List.Perm (g0 :: gs)
                  (nameSigs.2.map (fun s => PDict.getD (buildSigMaps dc ts).2 s [])) := by
                rw [← hsort]
                unfold overlappingTypesOf
                exact sortByLen_perm _
              have hgood : ∀ g ∈ g0 :: gs, g.Nodup ∧ ∀ x ∈ g, x ∈ ts := by
                intro g hg
                have hg' := hperm0.mem_iff.mp hg
                obtain ⟨s, _, rfl⟩ := List.mem_map.mp hg'
                by_cases hnil : PDict.getD (buildSigMaps dc ts).2 s [] = []
                · rw [hnil]
                  exact ⟨List.nodup_nil, by intro x hx; cases hx⟩
                · have hmem := PDict.getD_mem_entries (buildSigMaps dc ts).2 s [] hnil
                  exact ⟨(buildSigMaps_inv dc ts).2.1 _ hmem,
                         (buildSigMaps_inv dc ts).2.2 _ hmem⟩
              have hother_def : otherTypesOf dc ts nameSigs
                  = ts.filter (fun t => t ∉ (g0 :: gs).foldl (· ++ ·) []) := by
                unfold otherTypesOf
                simp only [hsort]
              have hmem_other : ∀ x, x ∈ otherTypesOf dc ts nameSigs ↔
                  (x ∈ ts ∧ x ∉ (g0 :: gs).flatten) := by
                intro x
                rw [hother_def, List.mem_filter, foldl_append_eq_flatten]
                simp
              have hother_nd : (otherTypesOf dc ts nameSigs).Nodup :=
                hother_def ▸ hnd.filter _
              have hflat_nd : ((g0 :: gs).flatten).Nodup := by
                rw [List.nodup_flatten]
                constructor
                · intro l hl; exact (hgood l hl).1
                · have hpd := (pairwiseDisjointB_iff _).mp hdisjB
                  rw [hsort] at hpd
                  exact hpd
              have hperm1 : List.Perm
                  (((g0 ++ otherTypesOf dc ts nameSigs) :: gs).flatten)
                  ((g0 :: gs).flatten ++ otherTypesOf dc ts nameSigs) := by
                simp only [List.flatten_cons]
                rw [List.append_assoc, List.append_assoc]
                exact List.Perm.append_left g0 (List.perm_append_comm)
              have hflatgroups_nd :
                  (((g0 ++ otherTypesOf dc ts nameSigs) :: gs).flatten).Nodup := by
                rw [hperm1.nodup_iff]
                refine List.Nodup.append hflat_nd hother_nd ?_
                intro x hx hx'
                exact ((hmem_other x).mp hx').2 hx
              have hsub : ∀ x ∈ ((g0 ++ otherTypesOf dc ts nameSigs) :: gs).flatten,
                  x ∈ ts := by
                intro x hx
                rcases hperm1.mem_iff.mp hx with hx'
                rcases List.mem_append.mp hx' with hx' | hx'
                · obtain ⟨l, hl, hxl⟩ := List.mem_flatten.mp hx'
                  exact (hgood l hl).2 x hxl
                · exact ((hmem_other x).mp hx').1
              have hlen : (((g0 ++ otherTypesOf dc ts nameSigs) :: gs).flatten).length
                  = ts.length := by
                have hs1 := hsum.1
                rw [foldl_len_eq_flatten] at hs1
                simpa using hs1
              have hperm : List.Perm
                  (((g0 ++ otherTypesOf dc ts nameSigs) :: gs).flatten) ts := by
                refine (List.subperm_of_subset hflatgroups_nd ?_).perm_of_length_le ?_
                · intro x hx; exact hsub x hx
                · rw [hlen]
              have hgroups_nd : ∀ g ∈ (g0 ++ otherTypesOf dc ts nameSigs) :: gs,
                  g.Nodup := by
                intro g hg
                rcases List.mem_cons.mp hg with hg | hg
                · subst hg
                  refine List.Nodup.append (hgood g0 (List.mem_cons_self g0 gs)).1
                    hother_nd ?_
                  intro x hx hx'
                  exact ((hmem_other x).mp hx').2
                    (List.mem_flatten.mpr ⟨g0, List.mem_cons_self g0 gs, hx⟩)
                · exact (hgood g (List.mem_cons_of_mem _ hg)).1
              have hall_pos : ∀ g ∈ (g0 ++ otherTypesOf dc ts nameSigs) :: gs,
                  g.length ≠ 0 := by
                intro g hg
                have := List.all_eq_true.mp hsum.2 g hg
                simpa using this
              have hgs_ne : gs ≠ [] := by
                have hkv : nameSigs ∈ (buildSigMaps dc ts).1.entries :=
                  List.mem_of_find?_eq_some hfind
                have hnon : nameSigs.2 ≠ [] := (buildSigMaps_inv dc ts).1 nameSigs hkv
                have hne1 : nameSigs.2.length ≠ 1 := by
                  have hp := List.find?_some hfind
                  simpa using hp
                have hlen2 : 2 ≤ nameSigs.2.length := by
                  rcases hq : nameSigs.2.length with _ | n
                  · exact absurd (List.length_eq_zero.mp hq) hnon
                  · rcases n with _ | n
                    · exact absurd hq hne1
                    · omega
                have hleq := hperm0.length_eq
                rw [List.length_map] at hleq
                intro hgs
                rw [hgs] at hleq
                simp at hleq
                omega
              have hsizes : ∀ g ∈ (g0 ++ otherTypesOf dc ts nameSigs) :: gs,
                  g.length < ts.length := by
                intro g hg
                obtain ⟨g1, gs', rfl⟩ : ∃ g1 gs', gs = g1 :: gs' := by
                  cases gs with
                  | nil => exact absurd rfl hgs_ne
                  | cons g1 gs' => exact ⟨g1, gs', rfl⟩
                have htot : (g0 ++ otherTypesOf dc ts nameSigs).length
                    + (g1.length + (gs'.flatten).length) = ts.length := by
                  have := hlen
                  simp only [List.flatten_cons, List.length_append] at this ⊢
                  omega
                simp only [List.length_append] at htot
                have hpos1 : g1.length ≠ 0 :=
                  hall_pos g1 (List.mem_cons_of_mem _ (List.mem_cons_self g1 gs'))
                have hpos0 : (g0 ++ otherTypesOf dc ts nameSigs).length ≠ 0 :=
                  hall_pos _ (List.mem_cons_self _ _)
                simp only [List.length_append] at hpos0
                rcases List.mem_cons.mp hg with hg | hg
                · subst hg
                  simp only [List.length_append]
                  omega
                · have hle := mem_length_le_flatten (g1 :: gs') g hg
                  simp only [List.flatten_cons, List.length_append] at hle
                  omega
              rw [← h]
              exact ⟨hperm, hgroups_nd, hsizes⟩
            · cases h
        · cases h
      · cases h

theorem partitionTry_sound (dc : Option GremlinCardinality) :
    ∀ (fuel : Nat) (ts : List GraphEntityType) (parts : List (List GraphEntityType)),
      ts.length < fuel → ts.Nodup →
      partitionTry dc fuel ts = .ok parts →
      List.Perm parts.flatten ts
      ∧ ∀ part ∈ parts, ∀ t1 ∈ part, ∀ t2 ∈ part,
          ∀ p1 ∈ t1.properties, ∀ p2 ∈ t2.properties,
            p1.name = p2.name → p1.signature dc = p2.signature dc := by
  intro fuel
  induction fuel with
  | zero => intro ts parts hlt; exact absurd hlt (Nat.not_lt_zero _)
  | succ fuel ih =>
      intro ts parts hlt hnd h
      unfold partitionTry at h
      cases htry : trySplit dc ts with
      | none =>
          rw [htry] at h
          rw [Except.ok.injEq] at h
          subst h
          constructor
          · simp
          · intro part hpart
            rw [List.mem_singleton] at hpart
            subst hpart
            exact trySplit_none_separated dc part htry
      | some r =>
          rw [htry] at h
          cases r with
          | error e => cases h
          | ok groups =>
              simp only [exceptBindOk] at h
              cases hm : groups.mapM (partitionTry dc fuel) with
              | error e => rw [hm] at h; cases h
              | ok res =>
                  rw [hm] at h
                  simp only [exceptBindOk] at h
                  rw [Except.ok.injEq] at h
                  subst h
                  obtain ⟨hperm, hgnd, hgsz⟩ := trySplit_ok_cover dc ts groups htry hnd
                  have agg : ∀ (gl : List (List GraphEntityType))
                      (rl : List (List (List GraphEntityType))),
                      (∀ g ∈ gl, g.Nodup ∧ g.length < fuel) →
                      gl.mapM (partitionTry dc fuel) = .ok rl →
                      List.Perm (rl.flatten).flatten gl.flatten
                      ∧ ∀ part ∈ rl.flatten, ∀ t1 ∈ part, ∀ t2 ∈ part,
                          ∀ p1 ∈ t1.properties, ∀ p2 ∈ t2.properties,
                            p1.name = p2.name → p1.signature dc = p2.signature dc := by
                    intro gl
                    induction gl with
                    | nil =>
                        intro rl _ hmm
                        simp only [List.mapM_nil, exceptPure, Except.ok.injEq] at hmm
                        subst hmm
                        exact ⟨by simp, by intro part hpart; cases hpart⟩
                    | cons g gl' ihg =>
                        intro rl hgood hmm
                        rw [List.mapM_cons] at hmm
                        cases hg1 : partitionTry dc fuel g with
                        | error e => rw [hg1] at hmm; cases hmm
                        | ok pg =>
                            rw [hg1] at hmm
                            simp only [exceptBindOk] at hmm
                            cases hg2 : gl'.mapM (partitionTry dc fuel) with
                            | error e => rw [hg2] at hmm; cases hmm
                            | ok rl' =>
                                rw [hg2] at hmm
                                simp only [exceptBindOk, exceptPure,
                                  Except.ok.injEq] at hmm
                                subst hmm
                                have hgg := hgood g (List.mem_cons_self g gl')
                                obtain ⟨hpermg, hsepg⟩ := ih g pg hgg.2 hgg.1 hg1
                                obtain ⟨hpermr, hsepr⟩ := ihg rl'
                                  (fun g' hg' => hgood g' (List.mem_cons_of_mem _ hg')) hg2
                                constructor
                                · simp only [List.flatten_cons, List.flatten_append]
                                  exact List.Perm.append hpermg hpermr
                                · intro part hpart
                                  simp only [List.flatten_cons] at hpart
                                  rcases List.mem_append.mp hpart with hp | hp
                                  · exact hsepg part hp
                                  · exact hsepr part hp
                  have hagg := agg groups res
                    (fun g hg => ⟨hgnd g hg,
                      Nat.lt_of_lt_of_le (hgsz g hg) (Nat.lt_succ_iff.mp hlt)⟩) hm
                  exact ⟨hagg.1.trans hperm, hagg.2⟩

/-- C2: for every Nodup input of entity types on which `partition_properties`
succeeds, the returned partitions exactly cover the input (their
concatenation is a permutation of it, so no type is lost or duplicated),
they are pairwise disjoint, and two types declaring the same property name
with different declared scalar types are never in the same partition (any
same-named properties within one partition agree on the scalar type). -/
theorem partition_properties_cover_disjoint :
    ∀ (types : List GraphEntityType) (parts : List (List GraphEntityType)),
      types.Nodup → partition_properties types = .ok parts →
      List.Perm parts.flatten types
      ∧ pairwiseDisjointB parts = true
      ∧ ∀ part ∈ parts, ∀ t1 ∈ part, ∀ t2 ∈ part,
          ∀ p1 ∈ t1.properties, ∀ p2 ∈ t2.properties,
            p1.name = p2.name → p1.type = p2.type := by
  intro types parts hnd h
  unfold partition_properties at h
  split at h
  · simp only [exceptBindOk] at h
    cases hpt : partitionTry (some GremlinCardinality.single) (types.length + 1) types with
    | error e => rw [hpt] at h; cases h
    | ok partitioned =>
        rw [hpt] at h
        simp only [exceptBindOk] at h
        split at h
        · split at h
          · rename_i hsum hdisj
            rw [Except.ok.injEq] at h
            subst h
            obtain ⟨hperm, hsep⟩ := partitionTry_sound (some GremlinCardinality.single)
              (types.length + 1) types partitioned (Nat.lt_succ_self _) hnd hpt
            refine ⟨hperm, hdisj, ?_⟩
            intro part hpart t1 ht1 t2 ht2 p1 hp1 p2 hp2 hname
            have := hsep part hpart t1 ht1 t2 ht2 p1 hp1 p2 hp2 hname
            exact congrArg Signature.type this
          · cases h
        · cases h
  · split at h
    · simp only [exceptBindOk] at h
      cases hpt : partitionTry none (types.length + 1) types with
      | error e => rw [hpt] at h; cases h
      | ok partitioned =>
          rw [hpt] at h
          simp only [exceptBindOk] at h
          split at h
          · split at h
            · rename_i hsum hdisj
              rw [Except.ok.injEq] at h
              subst h
              obtain ⟨hperm, hsep⟩ := partitionTry_sound none
                (types.length + 1) types partitioned (Nat.lt_succ_self _) hnd hpt
              refine ⟨hperm, hdisj, ?_⟩
              intro part hpart t1 ht1 t2 ht2 p1 hp1 p2 hp2 hname
              have := hsep part hpart t1 ht1 t2 ht2 p1 hp1 p2 hp2 hname
              exact congrArg Signature.type this
            · cases h
          · cases h
    · cases h

theorem partition_properties_cover_disjoint_witness :
    List.Perm ([[typeA, typeD], [typeB, typeC]].flatten) [typeA, typeB, typeC, typeD]
    ∧ pairwiseDisjointB [[typeA, typeD], [typeB, typeC]] = true
    ∧ ∀ part ∈ [[typeA, typeD], [typeB, typeC]], ∀ t1 ∈ part, ∀ t2 ∈ part,
        ∀ p1 ∈ t1.properties, ∀ p2 ∈ t2.properties,
          p1.name = p2.name → p1.type = p2.type :=
  partition_properties_cover_disjoint [typeA, typeB, typeC, typeD]
    [[typeA, typeD], [typeB, typeC]] (by decide) rfl

/-! ## C4: idempotent creation

The second `_create` call with identical raw properties finds the key it
registered (or found) in EXISTING, overlays the key-property values of the
first call's entity, and `Type.create` then produces an entity with the
same content, so the stored (and returned) entity is the first call's.
The proof works pointwise on `get?`: each stage of `create` has a closed
form, and the overlay changes the raw properties only at key-property
names whose values the first call either already had or would fill
identically. -/

theorem PDict.nodupKeys_filter {α β : Type} [DecidableEq α]
    (d : PDict α β) (P : α × β → Bool) (h : PDict.NodupKeys d) :
    PDict.NodupKeys (d.filter P) := by
  unfold NodupKeys keys at h ⊢
  exact List.Nodup.sublist (List.Sublist.map Prod.fst (List.filter_sublist d)) h

theorem PDict.get?_filter {α β : Type} [DecidableEq α]
    (d : PDict α β) (P : α × β → Bool) (h : PDict.NodupKeys d) (a : α) :
    PDict.get? (d.filter P) a
      = match PDict.get? d a with
        | some v => if P (a, v) then some v else none
        | none => none := by
  induction d with
  | nil => rfl
  | cons kv rest ih =>
      obtain ⟨k, v⟩ := kv
      have hnd : NodupKeys rest := (List.nodup_cons.mp h).2
      have hk : k ∉ keys rest := (List.nodup_cons.mp h).1
      rw [List.filter_cons]
      by_cases hp : P (k, v) = true
      · rw [if_pos hp]
        by_cases hka : k = a
        · subst hka
          rw [get?_cons, if_pos rfl, get?_cons, if_pos rfl]
          simp [hp]
        · rw [get?_cons, if_neg hka, get?_cons, if_neg hka]
          exact ih hnd
      · rw [if_neg hp]
        by_cases hka : k = a
        · subst hka
          rw [ih hnd, get?_eq_none_of_not_mem_keys rest k hk, get?_cons, if_pos rfl]
          simp [hp]
        · rw [ih hnd, get?_cons, if_neg hka]

theorem applyDefaults_get? (d : List (String × Value)) :
    ∀ (w : Entity) (n : String),
      (applyDefaults d w).get? n
        = match w.get? n with
          | some v => some v
          | none => (d.find? (fun kv => kv.1 = n)).map Prod.snd := by
  induction d with
  | nil =>
      intro w n
      unfold applyDefaults
      simp only [List.foldl_nil, List.find?_nil, Option.map_none']
      cases w.get? n <;> rfl
  | cons kv rest ih =>
      intro w n
      obtain ⟨k, v⟩ := kv
      unfold applyDefaults at ih ⊢
      simp only [List.foldl_cons]
      by_cases hc : w.contains k = true
      · simp only [hc, if_true]
        rw [ih w n]
        by_cases hkn : k = n
        · subst hkn
          unfold PDict.contains at hc
          cases hw : w.get? k with
          | none => rw [hw] at hc; simp at hc
          | some vv => rfl
        · cases hw : w.get? n with
          | none => simp [List.find?_cons, hkn]
          | some vv => rfl
      · simp only [hc, Bool.false_eq_true, if_false]
        rw [ih (w.insert k v) n]
        by_cases hkn : k = n
        · subst hkn
          rw [PDict.get?_insert_self]
          unfold PDict.contains at hc
          cases hw : w.get? k with
          | none => simp [List.find?_cons]
          | some vv => rw [hw] at hc; simp at hc
        · rw [PDict.get?_insert_ne _ _ _ _ hkn]
          cases hw : w.get? n with
          | none => simp [List.find?_cons, hkn]
          | some vv => rfl

theorem applyDefaults_nodupKeys (d : List (String × Value)) :
    ∀ (w : Entity), w.NodupKeys → (applyDefaults d w).NodupKeys := by
  induction d with
  | nil => intro w h; exact h
  | cons kv rest ih =>
      intro w h
      unfold applyDefaults at ih ⊢
      simp only [List.foldl_cons]
      by_cases hc : w.contains kv.1 = true
      · simp only [hc, if_true]
        exact ih w h
      · simp only [hc, Bool.false_eq_true, if_false]
        exact ih _ (PDict.nodupKeys_insert w kv.1 kv.2 h)

theorem foldl_propdef_get? :
    ∀ (l : List (String × Property)) (w : Entity) (n : String),
      (∀ kv ∈ l, kv.1 ≠ n) →
      (l.foldl
        (fun acc kp =>
          match kp.2.default with
          | some d => if acc.contains kp.1 then acc else acc.insert kp.1 d
          | none => acc)
        w).get? n = w.get? n := by
  intro l
  induction l with
  | nil => intro w n _; rfl
  | cons kp rest ih =>
      intro w n h
      simp only [List.foldl_cons]
      have hkn : kp.1 ≠ n := h kp (List.mem_cons_self kp rest)
      have hrest := fun kv hm => h kv (List.mem_cons_of_mem _ hm)
      cases hd : kp.2.default with
      | none => exact ih w n hrest
      | some d =>
          by_cases hc : w.contains kp.1 = true
          · simp only [hc, if_true]
            exact ih w n hrest
          · simp only [hc, Bool.false_eq_true, if_false]
            rw [ih _ n hrest, PDict.get?_insert_ne _ _ _ _ hkn]

theorem applyPropertyDefaults_get? (m : PDict String Property) (w : Entity)
    (hm : m.NodupKeys) (n : String) :
    (applyPropertyDefaults m w).get? n
      = match w.get? n with
        | some v => some v
        | none =>
            match m.get? n with
            | some p => p.default
            | none => none := by
  unfold applyPropertyDefaults
  induction m generalizing w with
  | nil => cases hw : w.get? n <;> simp [PDict.entries, PDict.get?, hw]
  | cons kp rest ih =>
      obtain ⟨k, p⟩ := kp
      have hnd : PDict.NodupKeys rest := (List.nodup_cons.mp hm).2
      have hk : k ∉ PDict.keys rest := (List.nodup_cons.mp hm).1
      simp only [PDict.entries] at ih ⊢
      simp only [List.foldl_cons]
      by_cases hkn : k = n
      · subst hkn
        -- the only entry that can set `k`; the rest never touches it
        have hrestn : ∀ kv ∈ rest, kv.1 ≠ k := by
          intro kv hkv he
          exact hk (he ▸ List.mem_map.mpr ⟨kv, hkv, rfl⟩)
        cases hd : p.default with
        | none =>
            rw [foldl_propdef_get? rest w k hrestn, PDict.get?_cons, if_pos rfl]
            cases hw : w.get? k with
            | none => simp [hd]
            | some vv => rfl
        | some d =>
            by_cases hc : w.contains k = true
            · simp only [hc, if_true]
              rw [foldl_propdef_get? rest w k hrestn, PDict.get?_cons, if_pos rfl]
              unfold PDict.contains at hc
              cases hw : w.get? k with
              | none => rw [hw] at hc; simp at hc
              | some vv => rfl
            · simp only [hc, Bool.false_eq_true, if_false]
              rw [foldl_propdef_get? rest _ k hrestn, PDict.get?_insert_self,
                PDict.get?_cons, if_pos rfl]
              unfold PDict.contains at hc
              cases hw : w.get? k with
              | none => simp [hd]
              | some vv => rw [hw] at hc; simp at hc
      · rw [PDict.get?_cons, if_neg hkn]
        cases hd : p.default with
        | none => exact ih w hnd
        | some d =>
            by_cases hc : w.contains k = true
            · simp only [hc, if_true]
              exact ih w hnd
            · simp only [hc, Bool.false_eq_true, if_false]
              rw [ih (w.insert k d) hnd, PDict.get?_insert_ne _ _ _ _ hkn]

theorem applyPropertyDefaults_nodupKeys (m : PDict String Property) :
    ∀ (w : Entity), w.NodupKeys → (applyPropertyDefaults m w).NodupKeys := by
  unfold applyPropertyDefaults
  induction m with
  | nil => intro w h; exact h
  | cons kp rest ih =>
      intro w h
      simp only [PDict.entries] at ih ⊢
      simp only [List.foldl_cons]
      cases hd : kp.2.default with
      | none => exact ih w h
      | some d =>
          by_cases hc : w.contains kp.1 = true
          · simp only [hc, if_true]
            exact ih w h
          · simp only [hc, Bool.false_eq_true, if_false]
            exact ih _ (PDict.nodupKeys_insert w kp.1 d h)

theorem mapM_ok_forall {γ δ : Type} (f : γ → Except String δ) :
    ∀ (l : List γ) (r : List δ), l.mapM f = .ok r →
      ∀ x ∈ l, ∃ y, f x = .ok y := by
  intro l
  induction l with
  | nil => intro r _ x hx; cases hx
  | cons a rest ih =>
      intro r h x hx
      rw [List.mapM_cons] at h
      cases ha : f a with
      | error e => rw [ha] at h; cases h
      | ok y =>
          rw [ha] at h
          simp only [exceptBindOk] at h
          cases hrest : rest.mapM f with
          | error e => rw [hrest] at h; cases h
          | ok ys =>
              rcases List.mem_cons.mp hx with hx | hx
              · exact hx ▸ ⟨y, ha⟩
              · exact ih ys hrest x hx

theorem properties_as_map_nodup (t : GraphEntityType) (m : PDict String Property)
    (h : properties_as_map t = .ok m) : m.NodupKeys := by
  unfold properties_as_map at h
  split at h
  · rw [Except.ok.injEq] at h
    subst h
    have gen : ∀ (l : List Property) (acc : PDict String Property),
        acc.NodupKeys → (l.foldl (fun acc p => acc.insert p.name p) acc).NodupKeys := by
      intro l
      induction l with
      | nil => intro acc h; exact h
      | cons p rest ih =>
          intro acc h
          simp only [List.foldl_cons]
          exact ih _ (PDict.nodupKeys_insert acc p.name p h)
    exact gen t.properties PDict.nil List.Pairwise.nil
  · cases h

theorem properties_as_map_name (t : GraphEntityType) (m : PDict String Property)
    (h : properties_as_map t = .ok m) :
    ∀ (n : String) (p : Property), m.get? n = some p → p.name = n := by
  unfold properties_as_map at h
  split at h
  · rw [Except.ok.injEq] at h
    subst h
    have gen : ∀ (l : List Property) (acc : PDict String Property),
        (∀ n p, acc.get? n = some p → p.name = n) →
        ∀ n p, (l.foldl (fun acc p => acc.insert p.name p) acc).get? n = some p →
          p.name = n := by
      intro l
      induction l with
      | nil => intro acc h; exact h
      | cons q rest ih =>
          intro acc h
          simp only [List.foldl_cons]
          refine ih _ ?_
          intro n p hp
          by_cases hq : q.name = n
          · rw [← hq, PDict.get?_insert_self] at hp
            rw [← hq, Option.some.inj hp]
          · rw [PDict.get?_insert_ne _ _ _ _ hq] at hp
            exact h n p hp
    exact gen t.properties PDict.nil (fun n p hp => by cases hp)
  · cases h

theorem discover_parameters_mem :
    ∀ (tpl : Template) (n : String),
      n ∈ discover_parameters tpl ↔ Chunk.param n ∈ tpl := by
  have gen : ∀ (tpl : Template) (acc : List String) (n : String),
      n ∈ tpl.foldl
        (fun acc c =>
          match c with
          | .param n => if n ∈ acc then acc else acc ++ [n]
          | .lit _ => acc)
        acc ↔ (n ∈ acc ∨ Chunk.param n ∈ tpl) := by
    intro tpl
    induction tpl with
    | nil => intro acc n; simp
    | cons c rest ih =>
        intro acc n
        simp only [List.foldl_cons]
        cases c with
        | lit s =>
            rw [ih]
            simp
        | param n' =>
            by_cases hmem : n' ∈ acc
            · simp only [hmem, if_true]
              rw [ih]
              constructor
              · rintro (h | h)
                · exact Or.inl h
                · exact Or.inr (List.mem_cons_of_mem _ h)
              · rintro (h | h)
                · exact Or.inl h
                · rcases List.mem_cons.mp h with h | h
                  · rw [Chunk.param.injEq] at h
                    exact Or.inl (h ▸ hmem)
                  · exact Or.inr h
            · simp only [hmem, if_false]
              rw [ih]
              constructor
              · rintro (h | h)
                · rcases List.mem_append.mp h with h | h
                  · exact Or.inl h
                  · rw [List.mem_singleton] at h
                    subst h
                    exact Or.inr (List.mem_cons_self _ _)
                · exact Or.inr (List.mem_cons_of_mem _ h)
              · rintro (h | h)
                · exact Or.inl (List.mem_append_left _ h)
                · rcases List.mem_cons.mp h with h | h
                  · rw [Chunk.param.injEq] at h
                    subst h
                    exact Or.inl (List.mem_append_right _ (List.mem_singleton_self _))
                  · exact Or.inr h
  intro tpl n
  unfold discover_parameters
  rw [gen]
  simp

theorem renderTemplate_congr (tpl : Template) (v1 v2 : PDict String (Option String))
    (h : ∀ n, Chunk.param n ∈ tpl → v1.get? n = v2.get? n) :
    renderTemplate tpl v1 = renderTemplate tpl v2 := by
  induction tpl with
  | nil => rfl
  | cons c rest ih =>
      have hrest : ∀ n, Chunk.param n ∈ rest → v1.get? n = v2.get? n :=
        fun n hn => h n (List.mem_cons_of_mem _ hn)
      cases c with
      | lit s =>
          unfold renderTemplate
          rw [ih hrest]
      | param n =>
          unfold renderTemplate
          rw [h n (List.mem_cons_self _ _), ih hrest]

theorem renderTemplate_ok_params (tpl : Template) (v : PDict String (Option String)) :
    ∀ (s : String), renderTemplate tpl v = .ok s →
      ∀ n, Chunk.param n ∈ tpl → ∃ o, v.get? n = some o := by
  induction tpl with
  | nil => intro s _ n hn; cases hn
  | cons c rest ih =>
      intro s h n hn
      cases c with
      | lit s' =>
          unfold renderTemplate at h
          rcases List.mem_cons.mp hn with hn | hn
          · cases hn
          · cases hr : renderTemplate rest v with
            | error e => rw [hr] at h; cases h
            | ok r => exact ih r hr n hn
      | param n' =>
          unfold renderTemplate at h
          cases hv : v.get? n' with
          | none => rw [hv] at h; cases h
          | some o =>
              rw [hv] at h
              rcases List.mem_cons.mp hn with hn | hn
              · rw [Chunk.param.injEq] at hn
                subst hn
                exact ⟨o, hv⟩
              · cases hr : renderTemplate rest v with
                | error e => rw [hr] at h; simp only [exceptBindErr] at h; cases h
                | ok r => exact ih r hr n hn

theorem properties_as_map_mem (t : GraphEntityType) (m : PDict String Property)
    (h : properties_as_map t = .ok m) :
    ∀ (n : String) (p : Property), m.get? n = some p → p ∈ t.properties := by
  unfold properties_as_map at h
  split at h
  · rw [Except.ok.injEq] at h
    subst h
    have gen : ∀ (l : List Property) (acc : PDict String Property),
        (∀ n p, acc.get? n = some p → p ∈ t.properties) →
        (∀ p ∈ l, p ∈ t.properties) →
        ∀ n p, (l.foldl (fun acc p => acc.insert p.name p) acc).get? n = some p →
          p ∈ t.properties := by
      intro l
      induction l with
      | nil => intro acc hacc _; exact hacc
      | cons q rest ih =>
          intro acc hacc hl
          simp only [List.foldl_cons]
          refine ih _ ?_ (fun p hp => hl p (List.mem_cons_of_mem _ hp))
          intro n p hp
          by_cases hq : q.name = n
          · rw [← hq, PDict.get?_insert_self] at hp
            rw [← Option.some.inj hp]
            exact hl q (List.mem_cons_self q rest)
          · rw [PDict.get?_insert_ne _ _ _ _ hq] at hp
            exact hacc n p hp
    exact gen t.properties PDict.nil (fun n p hp => by cases hp) (fun p hp => hp)
  · cases h

theorem gremlin_format_vNone (gt : GremlinType) :
    ∃ msg, gremlin_format gt .vNone = .error msg := by
  cases gt <;> exact ⟨_, rfl⟩

theorem idValuesOf_get? (m : PDict String Property) :
    ∀ (w : Entity) (vals : PDict String (Option String)),
      w.NodupKeys → idValuesOf m w = .ok vals →
      ∀ n, vals.get? n
        = (w.get? n).bind (fun v => (idTransform m n v).toOption) := by
  intro w
  induction w with
  | nil =>
      intro vals _ h n
      cases h
      rfl
  | cons kv rest ih =>
      intro vals hnd h n
      obtain ⟨k, v⟩ := kv
      unfold idValuesOf at h
      cases ht : idTransform m k v with
      | error e => rw [ht] at h; cases h
      | ok s =>
          rw [ht] at h
          simp only [exceptBindOk] at h
          cases hr : idValuesOf m rest with
          | error e => rw [hr] at h; cases h
          | ok rvals =>
              rw [hr] at h
              simp only [exceptBindOk, Except.ok.injEq] at h
              subst h
              have hknd : PDict.NodupKeys rest := (List.nodup_cons.mp hnd).2
              by_cases hkn : k = n
              · subst hkn
                rw [PDict.get?_cons, if_pos rfl, PDict.get?_cons, if_pos rfl]
                simp [ht, Except.toOption]
              · rw [PDict.get?_cons, if_neg hkn, PDict.get?_cons, if_neg hkn]
                exact ih rvals hknd hr n

theorem idValuesOf_ok (m : PDict String Property) :
    ∀ (w : Entity), w.NodupKeys →
      (∀ n v, w.get? n = some v → ∃ r, idTransform m n v = .ok r) →
      ∃ vals, idValuesOf m w = .ok vals := by
  intro w
  induction w with
  | nil => intro _ _; exact ⟨[], rfl⟩
  | cons kv rest ih =>
      intro hnd h
      obtain ⟨k, v⟩ := kv
      have hknd : PDict.NodupKeys rest := (List.nodup_cons.mp hnd).2
      have hk : k ∉ PDict.keys rest := (List.nodup_cons.mp hnd).1
      obtain ⟨r, hr⟩ := h k v (by rw [PDict.get?_cons, if_pos rfl])
      have hrest : ∀ (n : String) (v' : Value), PDict.get? rest n = some v' →
          ∃ r, idTransform m n v' = .ok r := by
        intro n v' hv'
        refine h n v' ?_
        have hkn : k ≠ n := by
          intro he
          subst he
          exact hk (PDict.mem_keys_of_get?_eq_some rest k v' hv')
        rw [PDict.get?_cons, if_neg hkn]
        exact hv'
      obtain ⟨rvals, hrvals⟩ := ih hknd hrest
      refine ⟨(k, r) :: rvals, ?_⟩
      unfold idValuesOf
      rw [hr]
      simp only [exceptBindOk]
      rw [hrvals]
      rfl

/-- the value stored under `n` after the label fill, defaults fill, None
drop, and property-default fill of `create`, as a function of the state
after `~id` synthesis. -/
theorem create_get?_cf (t : GraphEntityType) (m : PDict String Property)
    (wid : Entity) (hm : m.NodupKeys) (hnd : wid.NodupKeys) (n : String) :
    (applyPropertyDefaults m
      ((if t.kind = .vertex then
          applyDefaults t.defaults
            (if magicLABEL ∈ t.properties ∧ wid.contains "~label" = false
             then wid.insert "~label" (.vStr t.label) else wid)
        else
          (if magicLABEL ∈ t.properties ∧ wid.contains "~label" = false
           then wid.insert "~label" (.vStr t.label) else wid)).filter
        (fun nv => nv.2 ≠ .vNone))).get? n
    = (match
        (match
          (if t.kind = .vertex then
            match
              (if (magicLABEL ∈ t.properties ∧ wid.contains "~label" = false)
                  ∧ n = "~label"
               then some (Value.vStr t.label) else PDict.get? wid n) with
            | some v => some v
            | none => ((t.defaults).find? (fun kv => kv.1 = n)).map Prod.snd
          else
            (if (magicLABEL ∈ t.properties ∧ wid.contains "~label" = false)
                ∧ n = "~label"
             then some (Value.vStr t.label) else PDict.get? wid n)) with
        | some v => if decide ((n, v).2 ≠ Value.vNone) = true then some v else none
        | none => none) with
      | some v => some v
      | none => match m.get? n with | some p => p.default | none => none) := by
  have hS2 : (if magicLABEL ∈ t.properties ∧ wid.contains "~label" = false
      then wid.insert "~label" (.vStr t.label) else wid).NodupKeys := by
    split
    · exact PDict.nodupKeys_insert wid _ _ hnd
    · exact hnd
  have hS2get : ∀ k, PDict.get?
      (if magicLABEL ∈ t.properties ∧ wid.contains "~label" = false
       then wid.insert "~label" (.vStr t.label) else wid) k
      = (if (magicLABEL ∈ t.properties ∧ wid.contains "~label" = false) ∧ k = "~label"
         then some (Value.vStr t.label) else PDict.get? wid k) := by
    intro k
    split
    · rename_i hc
      rw [PDict.get?_insert]
      by_cases hk : "~label" = k
      · rw [if_pos hk, if_pos ⟨hc, hk.symm⟩]
      · rw [if_neg hk, if_neg (fun hh => hk hh.2.symm)]
    · rename_i hc
      rw [if_neg (fun hh => hc hh.1)]
  have hS3 : (if t.kind = .vertex then
      applyDefaults t.defaults
        (if magicLABEL ∈ t.properties ∧ wid.contains "~label" = false
         then wid.insert "~label" (.vStr t.label) else wid)
    else
      (if magicLABEL ∈ t.properties ∧ wid.contains "~label" = false
       then wid.insert "~label" (.vStr t.label) else wid)).NodupKeys := by
    split
    · exact applyDefaults_nodupKeys t.defaults _ hS2
    · exact hS2
  rw [applyPropertyDefaults_get? m _ hm n, PDict.get?_filter _ _ hS3 n]
  by_cases hk : t.kind = .vertex
  · rw [if_pos hk, if_pos hk, applyDefaults_get? t.defaults _ n, hS2get n]
    cases hx : (if (magicLABEL ∈ t.properties ∧ PDict.contains wid "~label" = false)
        ∧ n = "~label"
      then some (Value.vStr t.label) else PDict.get? wid n) with
    | some v => rfl
    | none =>
        cases hy : Option.map Prod.snd
            (List.find? (fun kv => decide (kv.1 = n)) t.defaults) with
        | some v => rfl
        | none => rfl
  · rw [if_neg hk, if_neg hk, hS2get n]
    cases hx : (if (magicLABEL ∈ t.properties ∧ PDict.contains wid "~label" = false)
        ∧ n = "~label"
      then some (Value.vStr t.label) else PDict.get? wid n) with
    | some v => rfl
    | none => rfl

theorem PDict.get?_isSome_of_mem_keys {α β : Type} [DecidableEq α]
    (d : PDict α β) (a : α) (h : a ∈ PDict.keys d) :
    ∃ b, PDict.get? d a = some b := by
  induction d with
  | nil => cases h
  | cons kv rest ih =>
      by_cases hk : kv.1 = a
      · exact ⟨kv.2, by rw [PDict.get?_cons, if_pos hk]⟩
      · rcases List.mem_cons.mp h with h | h
        · exact absurd h.symm hk
        · obtain ⟨b, hb⟩ := ih h
          exact ⟨b, by rw [PDict.get?_cons, if_neg hk]; exact hb⟩

theorem PDict.contains_eq_isSome {α β : Type} [DecidableEq α]
    (d : PDict α β) (a : α) :
    PDict.contains d a = (PDict.get? d a).isSome := by
  by_cases h : a ∈ PDict.keys d
  · obtain ⟨b, hb⟩ := PDict.get?_isSome_of_mem_keys d a h
    rw [hb, PDict.contains_of_mem_keys d a h]
    rfl
  · rw [PDict.get?_eq_none_of_not_mem_keys d a h]
    cases hc : PDict.contains d a
    · rfl
    · exact absurd (PDict.mem_keys_of_contains d a hc) h

theorem PDict.get?_eq_none_iff {α β : Type} [DecidableEq α]
    (d : PDict α β) (a : α) :
    PDict.get? d a = none ↔ PDict.contains d a = false := by
  rw [PDict.contains_eq_isSome]
  cases h : PDict.get? d a <;> simp

theorem overlay_nodup (names : List String) :
    ∀ (ex w : Entity), w.NodupKeys →
      PDict.NodupKeys
        (List.foldl
          (fun acc kv => if kv.1 ∈ names then PDict.insert acc kv.1 kv.2 else acc)
          w ex) := by
  intro ex
  induction ex with
  | nil => intro w h; exact h
  | cons kv rest ih =>
      intro w h
      simp only [List.foldl_cons]
      by_cases hm : kv.1 ∈ names
      · simp only [hm, if_true]
        exact ih _ (PDict.nodupKeys_insert w kv.1 kv.2 h)
      · simp only [hm, if_false]
        exact ih w h

theorem overlay_get? (names : List String) :
    ∀ (ex : Entity), ex.NodupKeys → ∀ (w : Entity) (n : String),
      PDict.get?
        (List.foldl
          (fun acc kv => if kv.1 ∈ names then PDict.insert acc kv.1 kv.2 else acc)
          w ex) n
      = if n ∈ names then
          match PDict.get? ex n with
          | some v => some v
          | none => PDict.get? w n
        else PDict.get? w n := by
  intro ex
  induction ex with
  | nil =>
      intro _ w n
      by_cases hn : n ∈ names
      · rw [if_pos hn]; rfl
      · rw [if_neg hn]; rfl
  | cons kv rest ih =>
      intro hnd w n
      obtain ⟨k, v⟩ := kv
      have hknd : PDict.NodupKeys rest := (List.nodup_cons.mp hnd).2
      have hk : k ∉ PDict.keys rest := (List.nodup_cons.mp hnd).1
      simp only [List.foldl_cons]
      by_cases hkm : k ∈ names
      · simp only [hkm, if_true]
        rw [ih hknd _ n]
        by_cases hkn : k = n
        · subst hkn
          rw [if_pos hkm, PDict.get?_eq_none_of_not_mem_keys rest k hk,
            PDict.get?_cons, if_pos rfl]
          rw [PDict.get?_insert_self, if_pos hkm]
        · rw [PDict.get?_cons, if_neg hkn]
          by_cases hn : n ∈ names
          · rw [if_pos hn, if_pos hn]
            cases PDict.get? rest n with
            | some v' => rfl
            | none => rw [PDict.get?_insert_ne _ _ _ _ hkn]
          · rw [if_neg hn, if_neg hn, PDict.get?_insert_ne _ _ _ _ hkn]
      · simp only [hkm, if_false]
        rw [ih hknd w n]
        by_cases hkn : k = n
        · subst hkn
          rw [if_neg hkm, if_neg hkm]
        · rw [PDict.get?_cons, if_neg hkn]

theorem mapM_ok_mem {γ δ : Type} (f : γ → Except String δ) :
    ∀ (l : List γ) (r : List δ), l.mapM f = .ok r →
      ∀ y ∈ r, ∃ x ∈ l, f x = .ok y := by
  intro l
  induction l with
  | nil =>
      intro r h y hy
      cases h
      cases hy
  | cons a rest ih =>
      intro r h y hy
      rw [List.mapM_cons] at h
      cases ha : f a with
      | error e => rw [ha] at h; cases h
      | ok b =>
          rw [ha] at h
          simp only [exceptBindOk] at h
          cases hrest : rest.mapM f with
          | error e => rw [hrest] at h; cases h
          | ok ys =>
              rw [hrest] at h
              simp only [exceptBindOk, exceptPure, Except.ok.injEq] at h
              subst h
              rcases List.mem_cons.mp hy with hy | hy
              · exact ⟨a, List.mem_cons_self a rest, hy ▸ ha⟩
              · obtain ⟨x, hx, hfx⟩ := ih ys hrest y hy
                exact ⟨x, List.mem_cons_of_mem a hx, hfx⟩

theorem idValuesOf_entry_ok (m : PDict String Property) :
    ∀ (w : Entity) (vals : PDict String (Option String)),
      idValuesOf m w = .ok vals →
      ∀ n v, PDict.get? w n = some v → ∃ r, idTransform m n v = .ok r := by
  intro w
  induction w with
  | nil =>
      intro vals _ n v hv
      cases hv
  | cons kv rest ih =>
      intro vals h n v hv
      obtain ⟨k, v'⟩ := kv
      unfold idValuesOf at h
      cases ht : idTransform m k v' with
      | error e => rw [ht] at h; cases h
      | ok s =>
          rw [ht] at h
          simp only [exceptBindOk] at h
          cases hr : idValuesOf m rest with
          | error e => rw [hr] at h; cases h
          | ok rvals =>
              by_cases hkn : k = n
              · subst hkn
                rw [PDict.get?_cons, if_pos rfl] at hv
                exact ⟨s, (Option.some.inj hv) ▸ ht⟩
              · rw [PDict.get?_cons, if_neg hkn] at hv
                exact ih rvals hr n v hv

theorem keys_all_transport (e1 e2 : Entity) (P : String → Bool)
    (hpt : ∀ n, PDict.get? e2 n = PDict.get? e1 n)
    (h : e1.keys.all P = true) : e2.keys.all P = true := by
  rw [List.all_eq_true] at h ⊢
  intro k hk
  obtain ⟨v, hv⟩ := PDict.get?_isSome_of_mem_keys e2 k hk
  have h1 : PDict.get? e1 k = some v := by rw [← hpt k]; exact hv
  exact h k (PDict.mem_keys_of_get?_eq_some e1 k v h1)

theorem required_all_transport (m : PDict String Property) (e1 e2 : Entity)
    (hpt : ∀ n, PDict.get? e2 n = PDict.get? e1 n)
    (h : (PDict.entries m).all (fun kp => !kp.2.required || PDict.contains e1 kp.1) = true) :
    (PDict.entries m).all (fun kp => !kp.2.required || PDict.contains e2 kp.1) = true := by
  rw [List.all_eq_true] at h ⊢
  intro kp hkp
  have := h kp hkp
  rw [PDict.contains_eq_isSome, hpt kp.1, ← PDict.contains_eq_isSome]
  exact this

theorem get_key_properties_mem (t : GraphEntityType) (m : PDict String Property)
    (kp : List Property) (hm : properties_as_map t = .ok m)
    (hkp : get_key_properties t = .ok kp) :
    ∀ p ∈ kp, PDict.get? m p.name = some p
      ∧ p.name ∈ discover_parameters t.id_format := by
  intro p hp
  unfold get_key_properties at hkp
  rw [hm] at hkp
  simp only [exceptBindOk] at hkp
  obtain ⟨n, hn, hfn⟩ := mapM_ok_mem _ _ _ hkp p hp
  cases hq : PDict.get? m n with
  | none => rw [hq] at hfn; cases hfn
  | some q =>
      rw [hq] at hfn
      rw [Except.ok.injEq] at hfn
      have hname : q.name = n := properties_as_map_name t m hm n q hq
      rw [← hfn]
      exact ⟨hname ▸ hq, hname ▸ hn⟩

theorem get_existing_key_fact (t : GraphEntityType) (kwargs : Entity)
    (ek : ExistingKey) (kp : List Property)
    (hkp : get_key_properties t = .ok kp)
    (hex : get_existing_key t kwargs = .ok ek) :
    ∀ p ∈ kp,
      (t.kind = .edge ∧ p = wellKnownCreated)
      ∨ (t.kind = .vertex ∧ p = wellKnownTestShard)
      ∨ p = magicLABEL
      ∨ ∃ w s, PDict.get? kwargs p.name = some w ∧ w ≠ .vNone
          ∧ p.format w = .ok s := by
  intro p hp
  by_cases hc1 : t.kind = .edge ∧ p = wellKnownCreated
  · exact Or.inl hc1
  by_cases hc2 : t.kind = .vertex ∧ p = wellKnownTestShard
  · exact Or.inr (Or.inl hc2)
  by_cases hc3 : p = magicLABEL
  · exact Or.inr (Or.inr (Or.inl hc3))
  refine Or.inr (Or.inr (Or.inr ?_))
  unfold get_existing_key at hex
  rw [hkp] at hex
  simp only [exceptBindOk] at hex
  have hp1 : p ∈ (if t.kind = .edge
      then kp.filter (fun p => p ≠ wellKnownCreated) else kp) := by
    by_cases hk : t.kind = .edge
    · rw [if_pos hk]
      refine List.mem_filter.mpr ⟨hp, ?_⟩
      rw [decide_eq_true_eq]
      intro he
      exact hc1 ⟨hk, he⟩
    · rw [if_neg hk]
      exact hp
  have hp2 : p ∈ (if t.kind = .vertex
      then (if t.kind = .edge
        then kp.filter (fun p => p ≠ wellKnownCreated) else kp).filter
          (fun p => p ≠ wellKnownTestShard)
      else (if t.kind = .edge
        then kp.filter (fun p => p ≠ wellKnownCreated) else kp)) := by
    by_cases hk : t.kind = .vertex
    · rw [if_pos hk]
      refine List.mem_filter.mpr ⟨hp1, ?_⟩
      rw [decide_eq_true_eq]
      intro he
      exact hc2 ⟨hk, he⟩
    · rw [if_neg hk]
      exact hp1
  have hp3 : p ∈ ((if t.kind = .vertex
      then (if t.kind = .edge
        then kp.filter (fun p => p ≠ wellKnownCreated) else kp).filter
          (fun p => p ≠ wellKnownTestShard)
      else (if t.kind = .edge
        then kp.filter (fun p => p ≠ wellKnownCreated) else kp)).filter
      (fun p => p ≠ magicLABEL)) := by
    refine List.mem_filter.mpr ⟨hp2, ?_⟩
    rw [decide_eq_true_eq]
    exact hc3
  set l3 := ((if t.kind = .vertex
      then (if t.kind = .edge
        then kp.filter (fun p => p ≠ wellKnownCreated) else kp).filter
          (fun p => p ≠ wellKnownTestShard)
      else (if t.kind = .edge
        then kp.filter (fun p => p ≠ wellKnownCreated) else kp)).filter
      (fun p => p ≠ magicLABEL)) with hl3
  by_cases hA1 : wellKnownCreated ∈ l3
  · rw [if_pos hA1] at hex
    cases hex
  rw [if_neg hA1] at hex
  by_cases hA2 : magicLABEL ∈ l3
  · rw [if_pos hA2] at hex
    cases hex
  rw [if_neg hA2] at hex
  cases hpairs : l3.mapM
      (fun p => do
        let s ← p.format ((PDict.get? kwargs p.name).getD .vNone)
        Except.ok (p.name, s)) with
  | error e => rw [hpairs] at hex; cases hex
  | ok pairs =>
      obtain ⟨y, hy⟩ := mapM_ok_forall _ _ _ hpairs p hp3
      cases hf : p.format ((PDict.get? kwargs p.name).getD .vNone) with
      | error e => rw [hf] at hy; cases hy
      | ok s =>
          cases hw : PDict.get? kwargs p.name with
          | none =>
              rw [hw, Option.getD_none] at hf
              obtain ⟨msg, hmsg⟩ := gremlin_format_vNone p.type
              unfold Property.format at hf
              rw [hmsg] at hf
              cases hf
          | some w =>
              by_cases hwn : w = .vNone
              · subst hwn
                rw [hw, Option.getD_some] at hf
                obtain ⟨msg, hmsg⟩ := gremlin_format_vNone p.type
                unfold Property.format at hf
                rw [hmsg] at hf
                cases hf
              · rw [hw, Option.getD_some] at hf
                exact ⟨w, s, rfl, hwn, hf⟩

theorem createPipeline_get? (t : GraphEntityType) (m : PDict String Property)
    (wid : Entity) (hm : m.NodupKeys) (hnd : wid.NodupKeys) (n : String) :
    PDict.get? (createPipeline t m wid) n
    = (match
        (match
          (if t.kind = .vertex then
            match
              (if (magicLABEL ∈ t.properties ∧ wid.contains "~label" = false)
                  ∧ n = "~label"
               then some (Value.vStr t.label) else PDict.get? wid n) with
            | some v => some v
            | none => ((t.defaults).find? (fun kv => kv.1 = n)).map Prod.snd
          else
            (if (magicLABEL ∈ t.properties ∧ wid.contains "~label" = false)
                ∧ n = "~label"
             then some (Value.vStr t.label) else PDict.get? wid n)) with
        | some v => if decide ((n, v).2 ≠ Value.vNone) = true then some v else none
        | none => none) with
      | some v => some v
      | none => match PDict.get? m n with | some p => p.default | none => none) := by
  unfold createPipeline
  exact create_get?_cf t m wid hm hnd n

theorem createPipeline_nodup (t : GraphEntityType) (m : PDict String Property)
    (wid : Entity) (hnd : wid.NodupKeys) :
    PDict.NodupKeys (createPipeline t m wid) := by
  unfold createPipeline
  have h2 : PDict.NodupKeys
      (if magicLABEL ∈ t.properties ∧ wid.contains "~label" = false
       then wid.insert "~label" (.vStr t.label) else wid) := by
    split
    · exact PDict.nodupKeys_insert wid _ _ hnd
    · exact hnd
  have h3 : PDict.NodupKeys
      (if t.kind = .vertex then
        applyDefaults t.defaults
          (if magicLABEL ∈ t.properties ∧ wid.contains "~label" = false
           then wid.insert "~label" (.vStr t.label) else wid)
      else
        (if magicLABEL ∈ t.properties ∧ wid.contains "~label" = false
         then wid.insert "~label" (.vStr t.label) else wid)) := by
    split
    · exact applyDefaults_nodupKeys t.defaults _ h2
    · exact h2
  exact applyPropertyDefaults_nodupKeys m _ (PDict.nodupKeys_filter _ _ h3)

theorem type_create_eq_syn (t : GraphEntityType) (w : Entity)
    (m : PDict String Property) (i : String)
    (hm : properties_as_map t = .ok m)
    (hc : magicID ∈ t.properties ∧ w.contains "~id" = false)
    (hi : entity_id t w = .ok i) :
    type_create t w =
      (if ((createPipeline t m (PDict.insert w "~id" (Value.vStr i))).keys.all
          (fun k => m.contains k)) = true then
        if ((PDict.entries m).all (fun kp => !kp.2.required
            || PDict.contains (createPipeline t m (PDict.insert w "~id" (Value.vStr i))) kp.1)) = true then
          .ok (createPipeline t m (PDict.insert w "~id" (Value.vStr i)))
        else .error "expected required properties"
      else .error "unexpected properties") := by
  conv_lhs => unfold type_create
  rw [hm]
  simp only [exceptBindOk]
  rw [if_pos hc, hi]
  simp only [exceptBindOk, exceptPure]
  unfold createPipeline
  rfl

theorem type_create_eq_nosyn (t : GraphEntityType) (w : Entity)
    (m : PDict String Property)
    (hm : properties_as_map t = .ok m)
    (hc : ¬(magicID ∈ t.properties ∧ w.contains "~id" = false)) :
    type_create t w =
      (if ((createPipeline t m w).keys.all (fun k => m.contains k)) = true then
        if ((PDict.entries m).all (fun kp => !kp.2.required
            || PDict.contains (createPipeline t m w) kp.1)) = true then
          .ok (createPipeline t m w)
        else .error "expected required properties"
      else .error "unexpected properties") := by
  conv_lhs => unfold type_create
  rw [hm]
  simp only [exceptBindOk]
  rw [if_neg hc]
  simp only [exceptBindOk, exceptPure]
  unfold createPipeline
  rfl

theorem type_create_eq_syn_err (t : GraphEntityType) (w : Entity)
    (m : PDict String Property) (msg : String)
    (hm : properties_as_map t = .ok m)
    (hc : magicID ∈ t.properties ∧ w.contains "~id" = false)
    (hi : entity_id t w = .error msg) :
    type_create t w = .error msg := by
  conv_lhs => unfold type_create
  rw [hm]
  simp only [exceptBindOk]
  rw [if_pos hc, hi]
  rfl

theorem type_create_ok_facts (t : GraphEntityType) (w e : Entity)
    (m : PDict String Property)
    (hm : properties_as_map t = .ok m)
    (h : type_create t w = .ok e) :
    (∃ wid,
      (((magicID ∈ t.properties ∧ w.contains "~id" = false)
          ∧ ∃ i, entity_id t w = .ok i ∧ wid = PDict.insert w "~id" (Value.vStr i))
        ∨ (¬(magicID ∈ t.properties ∧ w.contains "~id" = false) ∧ wid = w))
      ∧ e = createPipeline t m wid)
    ∧ (e.keys.all (fun k => m.contains k)) = true
    ∧ ((PDict.entries m).all
        (fun kp => !kp.2.required || PDict.contains e kp.1)) = true := by
  by_cases hc : magicID ∈ t.properties ∧ w.contains "~id" = false
  · cases hi : entity_id t w with
    | error msg => rw [type_create_eq_syn_err t w m msg hm hc hi] at h; cases h
    | ok i =>
        rw [type_create_eq_syn t w m i hm hc hi] at h
        split at h
        · rename_i h1
          split at h
          · rename_i h2
            rw [Except.ok.injEq] at h
            subst h
            exact ⟨⟨_, Or.inl ⟨hc, ⟨i, rfl, rfl⟩⟩, rfl⟩, h1, h2⟩
          · cases h
        · cases h
  · rw [type_create_eq_nosyn t w m hm hc] at h
    split at h
    · rename_i h1
      split at h
      · rename_i h2
        rw [Except.ok.injEq] at h
        subst h
        exact ⟨⟨_, Or.inr ⟨hc, rfl⟩, rfl⟩, h1, h2⟩
      · cases h
    · cases h

theorem pipe_some_cases (m : PDict String Property) (n : String)
    (X : Option Value) (v1 : Value)
    (h : (match
        (match X with
         | some v => if decide ((n, v).2 ≠ Value.vNone) = true then some v else none
         | none => none) with
      | some v => some v
      | none => match PDict.get? m n with | some p => p.default | none => none)
      = some v1) :
    v1 ≠ .vNone
    ∨ (match PDict.get? m n with | some p => p.default | none => none) = some v1 := by
  cases X with
  | none => exact Or.inr h
  | some v =>
      by_cases hv : v = Value.vNone
      · subst hv
        exact Or.inr h
      · refine Or.inl ?_
        have hd : decide ((n, v).2 ≠ Value.vNone) = true := decide_eq_true hv
        have h2 : (match (if decide ((n, v).2 ≠ Value.vNone) = true
              then some v else none : Option Value) with
          | some v => some v
          | none => match PDict.get? m n with | some p => p.default | none => none)
          = some v1 := h
        rw [if_pos hd] at h2
        have h' : some v = some v1 := h2
        rw [Option.some.injEq] at h'
        subst h'
        exact hv

theorem pipe_of_some (m : PDict String Property) (n : String) (v1 : Value)
    (hv : v1 ≠ .vNone
      ∨ (match PDict.get? m n with | some p => p.default | none => none) = some v1) :
    (match
        (match (some v1 : Option Value) with
         | some v => if decide ((n, v).2 ≠ Value.vNone) = true then some v else none
         | none => none) with
      | some v => some v
      | none => match PDict.get? m n with | some p => p.default | none => none)
      = some v1 := by
  by_cases hv1 : v1 = Value.vNone
  · subst hv1
    rcases hv with hv | hv
    · exact absurd rfl hv
    · exact hv
  · have hd : decide ((n, v1).2 ≠ Value.vNone) = true := decide_eq_true hv1
    show (match (if decide ((n, v1).2 ≠ Value.vNone) = true
          then some v1 else none : Option Value) with
      | some v => some v
      | none => match PDict.get? m n with | some p => p.default | none => none)
      = some v1
    rw [if_pos hd]

theorem createPipeline_pointwise (t : GraphEntityType) (m : PDict String Property)
    (P1 P2 e1 : Entity) (hm : m.NodupKeys)
    (h1nd : P1.NodupKeys) (h2nd : P2.NodupKeys)
    (he1 : e1 = createPipeline t m P1)
    (ha : ∀ n, PDict.get? P2 n = PDict.get? P1 n
          ∨ ((PDict.get? e1 n).isSome ∧ PDict.get? P2 n = PDict.get? e1 n)) :
    ∀ n, PDict.get? (createPipeline t m P2) n = PDict.get? e1 n := by
  intro n
  rw [createPipeline_get? t m P2 hm h2nd n]
  rcases ha n with hs | ⟨hsome, heq⟩
  · rw [he1, createPipeline_get? t m P1 hm h1nd n]
    by_cases hn : n = "~label"
    · subst hn
      have hceq : PDict.contains P2 "~label" = PDict.contains P1 "~label" := by
        rw [PDict.contains_eq_isSome, PDict.contains_eq_isSome, hs]
      by_cases hcnd : (magicLABEL ∈ t.properties
          ∧ PDict.contains P2 "~label" = false) ∧ ("~label" : String) = "~label"
      · have hcnd1 : (magicLABEL ∈ t.properties
            ∧ PDict.contains P1 "~label" = false) ∧ ("~label" : String) = "~label" :=
          ⟨⟨hcnd.1.1, hceq ▸ hcnd.1.2⟩, rfl⟩
        rw [if_pos hcnd, if_pos hcnd1]
      · have hcnd1 : ¬((magicLABEL ∈ t.properties
            ∧ PDict.contains P1 "~label" = false) ∧ ("~label" : String) = "~label") := by
          intro hh
          exact hcnd ⟨⟨hh.1.1, hceq ▸ hh.1.2⟩, rfl⟩
        rw [if_neg hcnd, if_neg hcnd1, hs]
    · have hqn2 : ¬((magicLABEL ∈ t.properties
          ∧ PDict.contains P2 "~label" = false) ∧ n = "~label") :=
        fun hh => hn hh.2
      have hqn1 : ¬((magicLABEL ∈ t.properties
          ∧ PDict.contains P1 "~label" = false) ∧ n = "~label") :=
        fun hh => hn hh.2
      rw [if_neg hqn2, if_neg hqn1, hs]
  · obtain ⟨v1, hv1⟩ := Option.isSome_iff_exists.mp hsome
    have hv1' : PDict.get? e1 n = some v1 := hv1
    rw [he1, createPipeline_get? t m P1 hm h1nd n] at hv1'
    have hchar := pipe_some_cases m n _ v1 hv1'
    have hL2 : (if (magicLABEL ∈ t.properties ∧ PDict.contains P2 "~label" = false)
          ∧ n = "~label"
        then some (Value.vStr t.label) else PDict.get? P2 n) = some v1 := by
      by_cases hn : n = "~label"
      · subst hn
        have hct : PDict.contains P2 "~label" = true := by
          rw [PDict.contains_eq_isSome, heq, hv1]
          rfl
        refine if_neg (fun hh => ?_) |>.trans ?_
        · rw [hct] at hh
          exact Bool.noConfusion hh.1.2
        · rw [heq]
          exact hv1
      · rw [if_neg (fun hh => hn hh.2), heq]
        exact hv1
    have hX2 : (if t.kind = .vertex then
          match (if (magicLABEL ∈ t.properties ∧ PDict.contains P2 "~label" = false)
              ∧ n = "~label"
            then some (Value.vStr t.label) else PDict.get? P2 n) with
          | some v => some v
          | none => ((t.defaults).find? (fun kv => kv.1 = n)).map Prod.snd
        else
          (if (magicLABEL ∈ t.properties ∧ PDict.contains P2 "~label" = false)
              ∧ n = "~label"
           then some (Value.vStr t.label) else PDict.get? P2 n)) = some v1 := by
      rw [hL2]
      split
      · rfl
      · rfl
    rw [hX2, hv1]
    exact pipe_of_some m n v1 hchar

theorem entity_id_eq (t : GraphEntityType) (w : Entity)
    (m : PDict String Property) (vals : PDict String (Option String))
    (hm : properties_as_map t = .ok m)
    (hvals : idValuesOf m
      (if t.kind = .vertex then applyDefaults t.defaults w else w) = .ok vals) :
    entity_id t w
      = renderTemplate t.id_format (vals.insert "~label" (some t.label)) := by
  unfold entity_id
  rw [hm]
  simp only [exceptBindOk]
  rw [hvals]
  simp only [exceptBindOk]

theorem entity_id_ok_inv (t : GraphEntityType) (w : Entity) (i : String)
    (m : PDict String Property)
    (hm : properties_as_map t = .ok m)
    (hi : entity_id t w = .ok i) :
    ∃ vals, idValuesOf m
        (if t.kind = .vertex then applyDefaults t.defaults w else w) = .ok vals
      ∧ renderTemplate t.id_format (vals.insert "~label" (some t.label)) = .ok i := by
  unfold entity_id at hi
  rw [hm] at hi
  simp only [exceptBindOk] at hi
  cases hv : idValuesOf m
      (if t.kind = .vertex then applyDefaults t.defaults w else w) with
  | error e => rw [hv] at hi; cases hi
  | ok vals =>
      rw [hv] at hi
      simp only [exceptBindOk] at hi
      exact ⟨vals, rfl, hi⟩

theorem e1_names_value (t : GraphEntityType) (m : PDict String Property)
    (kp : List Property) (kwargs P1 e1 : Entity)
    (hmnd : m.NodupKeys) (h1nd : P1.NodupKeys)
    (hkpm : ∀ p ∈ kp, PDict.get? m p.name = some p
      ∧ p.name ∈ discover_parameters t.id_format)
    (hfact : ∀ p ∈ kp,
      (t.kind = .edge ∧ p = wellKnownCreated)
      ∨ (t.kind = .vertex ∧ p = wellKnownTestShard)
      ∨ p = magicLABEL
      ∨ ∃ w s, PDict.get? kwargs p.name = some w ∧ w ≠ .vNone
          ∧ p.format w = .ok s)
    (he1 : e1 = createPipeline t m P1)
    (hP1 : ∀ n, n ≠ "~id" → PDict.get? P1 n = PDict.get? kwargs n) :
    ∀ n v, n ∈ kp.map Property.name → n ≠ "~id" → PDict.get? e1 n = some v →
      (n = "~label" ∧ v = .vStr t.label)
      ∨ PDict.get?
          (if t.kind = .vertex then applyDefaults t.defaults kwargs else kwargs) n
          = some v := by
  intro n v hn hnid hv
  obtain ⟨p, hp, hpname⟩ := List.mem_map.mp hn
  obtain ⟨hmp, hparam⟩ := hkpm p hp
  have hmpn : PDict.get? m n = some p := hpname ▸ hmp
  have hpdef : (t.kind = .edge ∧ p = wellKnownCreated)
      ∨ (t.kind = .vertex ∧ p = wellKnownTestShard)
      ∨ p = magicLABEL
      ∨ ∃ w s, PDict.get? kwargs n = some w ∧ w ≠ .vNone ∧ p.format w = .ok s := by
    rcases hfact p hp with h | h | h | ⟨w, s, hw, hwn, hf⟩
    · exact Or.inl h
    · exact Or.inr (Or.inl h)
    · exact Or.inr (Or.inr (Or.inl h))
    · exact Or.inr (Or.inr (Or.inr ⟨w, s, hpname ▸ hw, hwn, hf⟩))
  -- a fact used in every "came from the property default" contradiction:
  -- the property default route would force `p.default = some v`, which the
  -- four cases of `hpdef` each refute (given what `kwargs` holds at `n`)
  have hpdcontra : ∀ (hkw : PDict.get? kwargs n = none ∨ PDict.get? kwargs n = some .vNone),
      p.default = some v → False := by
    intro hkw hd
    rcases hpdef with ⟨_, hpc⟩ | ⟨_, hpc⟩ | hpc | ⟨w, s, hw, hwn, _⟩
    · rw [hpc] at hd; cases hd
    · rw [hpc] at hd; cases hd
    · rw [hpc] at hd; cases hd
    · rcases hkw with hkw | hkw
      · rw [hkw] at hw; cases hw
      · rw [hkw] at hw
        rw [Option.some.injEq] at hw
        exact hwn hw.symm
  rw [he1, createPipeline_get? t m P1 hmnd h1nd n] at hv
  by_cases hcond : (magicLABEL ∈ t.properties
      ∧ PDict.contains P1 "~label" = false) ∧ n = "~label"
  · rw [if_pos hcond] at hv
    by_cases hvert : t.kind = .vertex
    · rw [if_pos hvert] at hv
      have hv2 : some (Value.vStr t.label) = some v := hv
      rw [Option.some.injEq] at hv2
      exact Or.inl ⟨hcond.2, hv2.symm⟩
    · rw [if_neg hvert] at hv
      have hv2 : some (Value.vStr t.label) = some v := hv
      rw [Option.some.injEq] at hv2
      exact Or.inl ⟨hcond.2, hv2.symm⟩
  · rw [if_neg hcond, hP1 n hnid] at hv
    cases hkw : PDict.get? kwargs n with
    | some w =>
        rw [hkw] at hv
        by_cases hw : w = Value.vNone
        · subst hw
          refine absurd ?_ (hpdcontra (Or.inr hkw))
          by_cases hvert : t.kind = .vertex
          · rw [if_pos hvert] at hv
            have hv2 : (match PDict.get? m n with
              | some p => p.default | none => none) = some v := hv
            rw [hmpn] at hv2
            exact hv2
          · rw [if_neg hvert] at hv
            have hv2 : (match PDict.get? m n with
              | some p => p.default | none => none) = some v := hv
            rw [hmpn] at hv2
            exact hv2
        · have hd : decide ((n, w).2 ≠ Value.vNone) = true := decide_eq_true hw
          refine Or.inr ?_
          have hvw : v = w := by
            by_cases hvert : t.kind = .vertex
            · rw [if_pos hvert] at hv
              have hv2 : (match (if decide ((n, w).2 ≠ Value.vNone) = true
                    then some w else none : Option Value) with
                | some u => some u
                | none => match PDict.get? m n with
                  | some p => p.default | none => none) = some v := hv
              rw [if_pos hd, Option.some.injEq] at hv2
              exact hv2.symm
            · rw [if_neg hvert] at hv
              have hv2 : (match (if decide ((n, w).2 ≠ Value.vNone) = true
                    then some w else none : Option Value) with
                | some u => some u
                | none => match PDict.get? m n with
                  | some p => p.default | none => none) = some v := hv
              rw [if_pos hd, Option.some.injEq] at hv2
              exact hv2.symm
          subst hvw
          by_cases hvert : t.kind = .vertex
          · rw [if_pos hvert, applyDefaults_get? t.defaults kwargs n, hkw]
          · rw [if_neg hvert, hkw]
    | none =>
        rw [hkw] at hv
        by_cases hvert : t.kind = .vertex
        · rw [if_pos hvert] at hv
          cases hfd : ((t.defaults).find? (fun kv => kv.1 = n)).map Prod.snd with
          | some d =>
              rw [hfd] at hv
              by_cases hd : d = Value.vNone
              · subst hd
                refine absurd ?_ (hpdcontra (Or.inl hkw))
                have hv2 : (match PDict.get? m n with
                  | some p => p.default | none => none) = some v := hv
                rw [hmpn] at hv2
                exact hv2
              · have hdd : decide ((n, d).2 ≠ Value.vNone) = true := decide_eq_true hd
                have hv2 : (match (if decide ((n, d).2 ≠ Value.vNone) = true
                      then some d else none : Option Value) with
                  | some u => some u
                  | none => match PDict.get? m n with
                    | some p => p.default | none => none) = some v := hv
                rw [if_pos hdd, Option.some.injEq] at hv2
                refine Or.inr ?_
                rw [if_pos hvert, applyDefaults_get? t.defaults kwargs n, hkw, hfd,
                  hv2]
          | none =>
              rw [hfd] at hv
              refine absurd ?_ (hpdcontra (Or.inl hkw))
              have hv2 : (match PDict.get? m n with
                | some p => p.default | none => none) = some v := hv
              rw [hmpn] at hv2
              exact hv2
        · rw [if_neg hvert] at hv
          refine absurd ?_ (hpdcontra (Or.inl hkw))
          have hv2 : (match PDict.get? m n with
            | some p => p.default | none => none) = some v := hv
          rw [hmpn] at hv2
          exact hv2

theorem entity_id_overlay (t : GraphEntityType) (m : PDict String Property)
    (kp : List Property) (kwargs P1 e1 : Entity) (i1 : String)
    (hm : properties_as_map t = .ok m)
    (hmnd : m.NodupKeys) (hknd : kwargs.NodupKeys)
    (h1nd : P1.NodupKeys) (he1nd : e1.NodupKeys)
    (hkpm : ∀ p ∈ kp, PDict.get? m p.name = some p
      ∧ p.name ∈ discover_parameters t.id_format)
    (hfact : ∀ p ∈ kp,
      (t.kind = .edge ∧ p = wellKnownCreated)
      ∨ (t.kind = .vertex ∧ p = wellKnownTestShard)
      ∨ p = magicLABEL
      ∨ ∃ w s, PDict.get? kwargs p.name = some w ∧ w ≠ .vNone
          ∧ p.format w = .ok s)
    (he1 : e1 = createPipeline t m P1)
    (hP1 : ∀ n, n ≠ "~id" → PDict.get? P1 n = PDict.get? kwargs n)
    (hidn : "~id" ∉ kp.map Property.name)
    (hi1 : entity_id t kwargs = .ok i1) :
    entity_id t (List.foldl
      (fun acc kv =>
        if kv.1 ∈ kp.map Property.name then PDict.insert acc kv.1 kv.2 else acc)
      kwargs e1) = .ok i1 := by
  obtain ⟨vals1, hvals1, hrender1⟩ := entity_id_ok_inv t kwargs i1 m hm hi1
  have hval := e1_names_value t m kp kwargs P1 e1 hmnd h1nd hkpm hfact he1 hP1
  set KW2 := List.foldl
      (fun acc kv =>
        if kv.1 ∈ kp.map Property.name then PDict.insert acc kv.1 kv.2 else acc)
      kwargs e1 with hKW2def
  have hKW2nd : PDict.NodupKeys KW2 := overlay_nodup (kp.map Property.name) e1 kwargs hknd
  have hA1nd : PDict.NodupKeys
      (if t.kind = .vertex then applyDefaults t.defaults kwargs else kwargs) := by
    split
    · exact applyDefaults_nodupKeys _ _ hknd
    · exact hknd
  have hA2nd : PDict.NodupKeys
      (if t.kind = .vertex then applyDefaults t.defaults KW2 else KW2) := by
    split
    · exact applyDefaults_nodupKeys _ _ hKW2nd
    · exact hKW2nd
  have hA2char : ∀ n,
      PDict.get? (if t.kind = .vertex then applyDefaults t.defaults KW2 else KW2) n
        = PDict.get?
            (if t.kind = .vertex then applyDefaults t.defaults kwargs else kwargs) n
      ∨ (∃ v, PDict.get?
            (if t.kind = .vertex then applyDefaults t.defaults KW2 else KW2) n
              = some v
          ∧ PDict.get? e1 n = some v ∧ n ∈ kp.map Property.name ∧ n ≠ "~id") := by
    intro n
    have hov := overlay_get? (kp.map Property.name) e1 he1nd kwargs n
    rw [← hKW2def] at hov
    by_cases hn : n ∈ kp.map Property.name
    · rw [if_pos hn] at hov
      cases he1n : PDict.get? e1 n with
      | none =>
          rw [he1n] at hov
          refine Or.inl ?_
          by_cases hvert : t.kind = .vertex
          · rw [if_pos hvert, if_pos hvert, applyDefaults_get? t.defaults KW2 n,
              applyDefaults_get? t.defaults kwargs n, hov]
          · rw [if_neg hvert, if_neg hvert, hov]
      | some ve =>
          rw [he1n] at hov
          refine Or.inr ⟨ve, ?_, rfl, hn, fun he => hidn (he ▸ hn)⟩
          by_cases hvert : t.kind = .vertex
          · rw [if_pos hvert, applyDefaults_get? t.defaults KW2 n, hov]
          · rw [if_neg hvert, hov]
    · rw [if_neg hn] at hov
      refine Or.inl ?_
      by_cases hvert : t.kind = .vertex
      · rw [if_pos hvert, if_pos hvert, applyDefaults_get? t.defaults KW2 n,
          applyDefaults_get? t.defaults kwargs n, hov]
      · rw [if_neg hvert, if_neg hvert, hov]
  have hA2ok : ∀ n v,
      PDict.get? (if t.kind = .vertex then applyDefaults t.defaults KW2 else KW2) n
        = some v → ∃ r, idTransform m n v = .ok r := by
    intro n v hnv
    rcases hA2char n with hsame | ⟨ve, hv2, hv1e, hnn, hnid2⟩
    · rw [hsame] at hnv
      exact idValuesOf_entry_ok m _ vals1 hvals1 n v hnv
    · rw [hv2, Option.some.injEq] at hnv
      subst hnv
      rcases hval n ve hnn hnid2 hv1e with ⟨_, hlab⟩ | hA1v
      · subst hlab
        exact ⟨some t.label, rfl⟩
      · exact idValuesOf_entry_ok m _ vals1 hvals1 n ve hA1v
  obtain ⟨vals2, hvals2⟩ := idValuesOf_ok m _ hA2nd hA2ok
  have hagree : ∀ n, Chunk.param n ∈ t.id_format →
      PDict.get? (vals2.insert "~label" (some t.label)) n
        = PDict.get? (vals1.insert "~label" (some t.label)) n := by
    intro n _
    by_cases hnl : "~label" = n
    · subst hnl
      rw [PDict.get?_insert_self, PDict.get?_insert_self]
    · rw [PDict.get?_insert_ne _ _ _ _ hnl, PDict.get?_insert_ne _ _ _ _ hnl,
        idValuesOf_get? m _ vals2 hA2nd hvals2 n,
        idValuesOf_get? m _ vals1 hA1nd hvals1 n]
      rcases hA2char n with hsame | ⟨ve, hv2, hv1e, hnn, hnid2⟩
      · rw [hsame]
      · rcases hval n ve hnn hnid2 hv1e with ⟨hlab, _⟩ | hA1v
        · exact absurd hlab (fun h => hnl h.symm)
        · rw [hv2, hA1v]
  rw [entity_id_eq t KW2 m vals2 hm hvals2,
    renderTemplate_congr t.id_format _ _ hagree]
  exact hrender1

theorem createPipeline_keeps_vstr (t : GraphEntityType) (m : PDict String Property)
    (wid : Entity) (hmnd : m.NodupKeys) (hnd : wid.NodupKeys) (n s : String)
    (hn : n ≠ "~label") (hw : PDict.get? wid n = some (Value.vStr s)) :
    PDict.get? (createPipeline t m wid) n = some (Value.vStr s) := by
  rw [createPipeline_get? t m wid hmnd hnd n]
  have hq : ¬((magicLABEL ∈ t.properties ∧ PDict.contains wid "~label" = false)
      ∧ n = "~label") := fun hh => hn hh.2
  rw [if_neg hq, hw]
  by_cases hvert : t.kind = .vertex
  · rw [if_pos hvert]
    rfl
  · rw [if_neg hvert]
    rfl

theorem create_overlay_stable (t : GraphEntityType) (m : PDict String Property)
    (kp : List Property) (kwargs : Entity) (ek : ExistingKey) (e1 : Entity)
    (hk : kwargs.NodupKeys)
    (hm : properties_as_map t = .ok m)
    (hkp : get_key_properties t = .ok kp)
    (hex : get_existing_key t kwargs = .ok ek)
    (h1 : type_create t kwargs = .ok e1) :
    ∃ e2, type_create t (List.foldl
        (fun acc kv =>
          if kv.1 ∈ kp.map Property.name then PDict.insert acc kv.1 kv.2 else acc)
        kwargs e1) = .ok e2
      ∧ ∀ n, PDict.get? e2 n = PDict.get? e1 n := by
  have hmnd := properties_as_map_nodup t m hm
  have hkpm := get_key_properties_mem t m kp hm hkp
  have hfact := get_existing_key_fact t kwargs ek kp hkp hex
  obtain ⟨⟨P1, hst1, he1⟩, hass1, hass2⟩ := type_create_ok_facts t kwargs e1 m hm h1
  have h1nd : P1.NodupKeys := by
    rcases hst1 with ⟨_, i, _, hw⟩ | ⟨_, hw⟩
    · subst hw
      exact PDict.nodupKeys_insert _ _ _ hk
    · subst hw
      exact hk
  have he1nd : e1.NodupKeys := he1 ▸ createPipeline_nodup t m P1 h1nd
  set KW2 := List.foldl
      (fun acc kv =>
        if kv.1 ∈ kp.map Property.name then PDict.insert acc kv.1 kv.2 else acc)
      kwargs e1 with hKW2def
  have hKW2nd : KW2.NodupKeys := overlay_nodup (kp.map Property.name) e1 kwargs hk
  have hov : ∀ n, PDict.get? KW2 n
      = if n ∈ kp.map Property.name then
          match PDict.get? e1 n with
          | some v => some v
          | none => PDict.get? kwargs n
        else PDict.get? kwargs n := by
    intro n
    have h := overlay_get? (kp.map Property.name) e1 he1nd kwargs n
    rw [← hKW2def] at h
    exact h
  by_cases hc2 : magicID ∈ t.properties ∧ PDict.contains KW2 "~id" = false
  · -- the second call hits the `~id` synthesis; the first call must have too
    have hkid : PDict.contains kwargs "~id" = false := by
      cases hck : PDict.contains kwargs "~id"
      · rfl
      · exfalso
        rw [PDict.contains_eq_isSome] at hck
        obtain ⟨b, hb⟩ := Option.isSome_iff_exists.mp hck
        have hsome2 : (PDict.get? KW2 "~id").isSome = true := by
          rw [hov "~id"]
          by_cases hn : "~id" ∈ kp.map Property.name
          · rw [if_pos hn]
            cases PDict.get? e1 "~id" with
            | some ve => rfl
            | none => rw [hb]; rfl
          · rw [if_neg hn, hb]; rfl
        have hc22 := hc2.2
        rw [PDict.contains_eq_isSome, hsome2] at hc22
        cases hc22
    rcases hst1 with ⟨hc1, i1, hi1, hw⟩ | ⟨hnc1, _⟩
    · have hP1x : ∀ n, n ≠ "~id" → PDict.get? P1 n = PDict.get? kwargs n := by
        intro n hn
        rw [hw]
        exact PDict.get?_insert_ne _ _ _ _ (fun he => hn he.symm)
      have he1id : PDict.get? e1 "~id" = some (Value.vStr i1) := by
        rw [he1]
        refine createPipeline_keeps_vstr t m P1 hmnd h1nd "~id" i1 (by decide) ?_
        rw [hw]
        exact PDict.get?_insert_self _ _ _
      have hidn : "~id" ∉ kp.map Property.name := by
        intro hmem
        have h2 := hov "~id"
        rw [if_pos hmem, he1id] at h2
        have hc22 := hc2.2
        rw [PDict.contains_eq_isSome, h2] at hc22
        cases hc22
      have hi2 : entity_id t KW2 = .ok i1 :=
        entity_id_overlay t m kp kwargs P1 e1 i1 hm hmnd hk h1nd he1nd hkpm hfact
          he1 hP1x hidn hi1
      have heq2 := type_create_eq_syn t KW2 m i1 hm hc2 hi2
      have h2nd : (PDict.insert KW2 "~id" (Value.vStr i1)).NodupKeys :=
        PDict.nodupKeys_insert _ _ _ hKW2nd
      have ha : ∀ n, PDict.get? (PDict.insert KW2 "~id" (Value.vStr i1)) n
            = PDict.get? P1 n
          ∨ ((PDict.get? e1 n).isSome
            ∧ PDict.get? (PDict.insert KW2 "~id" (Value.vStr i1)) n
              = PDict.get? e1 n) := by
        intro n
        by_cases hn : n = "~id"
        · subst hn
          refine Or.inl ?_
          rw [PDict.get?_insert_self, hw, PDict.get?_insert_self]
        · rw [PDict.get?_insert_ne _ _ _ _ (fun he => hn he.symm), hov n]
          by_cases hnm : n ∈ kp.map Property.name
          · rw [if_pos hnm]
            cases he1n : PDict.get? e1 n with
            | some ve => exact Or.inr ⟨rfl, rfl⟩
            | none =>
                refine Or.inl ?_
                rw [hP1x n hn]
          · rw [if_neg hnm]
            refine Or.inl ?_
            rw [hP1x n hn]
      have hpt := createPipeline_pointwise t m P1
        (PDict.insert KW2 "~id" (Value.vStr i1)) e1 hmnd h1nd h2nd he1 ha
      have hass1' := keys_all_transport e1 _ _ hpt hass1
      have hass2' := required_all_transport m e1 _ hpt hass2
      refine ⟨createPipeline t m (PDict.insert KW2 "~id" (Value.vStr i1)), ?_, hpt⟩
      rw [heq2, if_pos hass1', if_pos hass2']
    · exact absurd ⟨hc2.1, hkid⟩ hnc1
  · have heq2 := type_create_eq_nosyn t KW2 m hm hc2
    have ha : ∀ n, PDict.get? KW2 n = PDict.get? P1 n
        ∨ ((PDict.get? e1 n).isSome ∧ PDict.get? KW2 n = PDict.get? e1 n) := by
      intro n
      rw [hov n]
      by_cases hnm : n ∈ kp.map Property.name
      · rw [if_pos hnm]
        cases he1n : PDict.get? e1 n with
        | some ve => exact Or.inr ⟨rfl, rfl⟩
        | none =>
            refine Or.inl ?_
            rcases hst1 with ⟨hc1, i1, hi1, hw⟩ | ⟨_, hw⟩
            · by_cases hn : n = "~id"
              · subst hn
                exfalso
                have he1id : PDict.get? e1 "~id" = some (Value.vStr i1) := by
                  rw [he1]
                  refine createPipeline_keeps_vstr t m P1 hmnd h1nd "~id" i1
                    (by decide) ?_
                  rw [hw]
                  exact PDict.get?_insert_self _ _ _
                rw [he1id] at he1n
                cases he1n
              · rw [hw]
                rw [PDict.get?_insert_ne _ _ _ _ (fun he => hn he.symm)]
            · rw [hw]
      · rw [if_neg hnm]
        rcases hst1 with ⟨hc1, i1, hi1, hw⟩ | ⟨_, hw⟩
        · by_cases hn : n = "~id"
          · subst hn
            exfalso
            have hkidn : PDict.get? kwargs "~id" = none :=
              (PDict.get?_eq_none_iff kwargs "~id").mpr hc1.2
            have hKW2n : PDict.get? KW2 "~id" = none := by
              rw [hov "~id", if_neg hnm, hkidn]
            exact hc2 ⟨hc1.1, (PDict.get?_eq_none_iff KW2 "~id").mp hKW2n⟩
          · refine Or.inl ?_
            rw [hw]
            rw [PDict.get?_insert_ne _ _ _ _ (fun he => hn he.symm)]
        · refine Or.inl ?_
          rw [hw]
    have hpt := createPipeline_pointwise t m P1 KW2 e1 hmnd h1nd hKW2nd he1 ha
    have hass1' := keys_all_transport e1 _ _ hpt hass1
    have hass2' := required_all_transport m e1 _ hpt hass2
    refine ⟨createPipeline t m KW2, ?_, hpt⟩
    rw [heq2, if_pos hass1', if_pos hass2']

theorem PDict.getD_insert_self {α β : Type} [DecidableEq α]
    (d : PDict α β) (a : α) (b dflt : β) :
    PDict.getD (PDict.insert d a b) a dflt = b := by
  unfold PDict.getD
  rw [PDict.get?_insert_self]
  rfl

theorem get_existing_key_kp (t : GraphEntityType) (kwargs : Entity)
    (ek : ExistingKey) (hex : get_existing_key t kwargs = .ok ek) :
    ∃ kp, get_key_properties t = .ok kp := by
  unfold get_existing_key at hex
  cases hkp : get_key_properties t with
  | error e => rw [hkp] at hex; cases hex
  | ok kp => exact ⟨kp, rfl⟩

theorem type_create_pam (t : GraphEntityType) (w e : Entity)
    (h : type_create t w = .ok e) :
    ∃ m, properties_as_map t = .ok m := by
  unfold type_create at h
  cases hm : properties_as_map t with
  | error msg => rw [hm] at h; cases h
  | ok m => exact ⟨m, rfl⟩

theorem GetGraph_create_eq_existing_hit (t : GraphEntityType) (ents : EntitiesMap)
    (exts : ExistingMap) (kwargs : Entity) (ek : ExistingKey) (ex : Entity)
    (kp : List Property) (e stored : Entity)
    (hek : get_existing_key t kwargs = .ok ek)
    (hexk : PDict.get? (PDict.getD exts t PDict.nil) ek = some ex)
    (hkp : get_key_properties t = .ok kp)
    (htc : type_create t (List.foldl
      (fun acc kv =>
        if kv.1 ∈ kp.map Property.name then PDict.insert acc kv.1 kv.2 else acc)
      kwargs ex) = .ok e)
    (hst : PDict.get? (PDict.getD ents t PDict.nil)
      ((PDict.get? e "~id").getD .vNone) = some stored) :
    GetGraph_create t ents exts kwargs
      = .ok ⟨stored, ents, exts,
          if PDict.pdictBeq stored e then []
          else ["we already have an entity that is different"]⟩ := by
  unfold GetGraph_create
  rw [hek]
  simp only [exceptBindOk]
  split
  · rename_i ex' hex'
    rw [hexk, Option.some.injEq] at hex'
    subst hex'
    rw [hkp]
    simp only [exceptBindOk]
    rw [htc]
    simp only [exceptBindOk, exceptPure]
    split
    · rename_i stored' hst'
      rw [hst, Option.some.injEq] at hst'
      subst hst'
      rfl
    · rename_i hnone
      rw [hst] at hnone
      cases hnone
  · rename_i hex'
    rw [hexk] at hex'
    cases hex'

theorem GetGraph_create_eq_existing_miss (t : GraphEntityType) (ents : EntitiesMap)
    (exts : ExistingMap) (kwargs : Entity) (ek : ExistingKey) (ex : Entity)
    (kp : List Property) (e : Entity)
    (hek : get_existing_key t kwargs = .ok ek)
    (hexk : PDict.get? (PDict.getD exts t PDict.nil) ek = some ex)
    (hkp : get_key_properties t = .ok kp)
    (htc : type_create t (List.foldl
      (fun acc kv =>
        if kv.1 ∈ kp.map Property.name then PDict.insert acc kv.1 kv.2 else acc)
      kwargs ex) = .ok e)
    (hst : PDict.get? (PDict.getD ents t PDict.nil)
      ((PDict.get? e "~id").getD .vNone) = none) :
    GetGraph_create t ents exts kwargs
      = .ok ⟨e, PDict.insert ents t
          (PDict.insert (PDict.getD ents t PDict.nil)
            ((PDict.get? e "~id").getD .vNone) e), exts, []⟩ := by
  unfold GetGraph_create
  rw [hek]
  simp only [exceptBindOk]
  split
  · rename_i ex' hex'
    rw [hexk, Option.some.injEq] at hex'
    subst hex'
    rw [hkp]
    simp only [exceptBindOk]
    rw [htc]
    simp only [exceptBindOk, exceptPure]
    split
    · rename_i stored' hst'
      rw [hst] at hst'
      cases hst'
    · rfl
  · rename_i hex'
    rw [hexk] at hex'
    cases hex'

theorem GetGraph_create_eq_fresh_hit (t : GraphEntityType) (ents : EntitiesMap)
    (exts : ExistingMap) (kwargs : Entity) (ek : ExistingKey) (e stored : Entity)
    (hek : get_existing_key t kwargs = .ok ek)
    (hexk : PDict.get? (PDict.getD exts t PDict.nil) ek = none)
    (htc : type_create t kwargs = .ok e)
    (hst : PDict.get? (PDict.getD ents t PDict.nil)
      ((PDict.get? e "~id").getD .vNone) = some stored) :
    GetGraph_create t ents exts kwargs
      = .ok ⟨stored, ents,
          PDict.insert exts t (PDict.insert (PDict.getD exts t PDict.nil) ek e),
          if PDict.pdictBeq stored e then []
          else ["we already have an entity that is different"]⟩ := by
  unfold GetGraph_create
  rw [hek]
  simp only [exceptBindOk]
  split
  · rename_i ex' hex'
    rw [hexk] at hex'
    cases hex'
  · rw [htc]
    simp only [exceptBindOk, exceptPure]
    split
    · rename_i stored' hst'
      rw [hst, Option.some.injEq] at hst'
      subst hst'
      rfl
    · rename_i hnone
      rw [hst] at hnone
      cases hnone

theorem GetGraph_create_eq_fresh_miss (t : GraphEntityType) (ents : EntitiesMap)
    (exts : ExistingMap) (kwargs : Entity) (ek : ExistingKey) (e : Entity)
    (hek : get_existing_key t kwargs = .ok ek)
    (hexk : PDict.get? (PDict.getD exts t PDict.nil) ek = none)
    (htc : type_create t kwargs = .ok e)
    (hst : PDict.get? (PDict.getD ents t PDict.nil)
      ((PDict.get? e "~id").getD .vNone) = none) :
    GetGraph_create t ents exts kwargs
      = .ok ⟨e, PDict.insert ents t
          (PDict.insert (PDict.getD ents t PDict.nil)
            ((PDict.get? e "~id").getD .vNone) e),
          PDict.insert exts t (PDict.insert (PDict.getD exts t PDict.nil) ek e),
          []⟩ := by
  unfold GetGraph_create
  rw [hek]
  simp only [exceptBindOk]
  split
  · rename_i ex' hex'
    rw [hexk] at hex'
    cases hex'
  · rw [htc]
    simp only [exceptBindOk, exceptPure]
    split
    · rename_i stored' hst'
      rw [hst] at hst'
      cases hst'
    · rfl

/-- C4: idempotent creation: for every type, raw-property mapping (as a
Python dict, i.e. with distinct keys), entities map and existing map,
if `_create` succeeds then calling it again with the same raw properties
against the resulting state succeeds and returns exactly the entity the
first call returned (same `~id`, same content). -/
theorem create_idempotent (t : GraphEntityType) (ents : EntitiesMap)
    (exts : ExistingMap) (kwargs : Entity) (r1 : CreateResult)
    (hk : kwargs.NodupKeys)
    (h1 : GetGraph_create t ents exts kwargs = .ok r1) :
    ∃ r2, GetGraph_create t r1.entities r1.existing kwargs = .ok r2
      ∧ r2.entity = r1.entity := by
  have h1' := h1
  unfold GetGraph_create at h1
  cases hek : get_existing_key t kwargs with
  | error e => rw [hek] at h1; rw [exceptBindErr] at h1; cases h1
  | ok ek =>
      rw [hek] at h1
      simp only [exceptBindOk] at h1
      split at h1
      · rename_i ex hexk
        cases hkp : get_key_properties t with
        | error e => rw [hkp] at h1; cases h1
        | ok kp =>
            rw [hkp] at h1
            simp only [exceptBindOk] at h1
            cases htc : type_create t
                (List.foldl
                  (fun acc kv =>
                    if kv.1 ∈ List.map Property.name kp then PDict.insert acc kv.1 kv.2
                    else acc)
                  kwargs ex) with
            | error e => rw [htc] at h1; cases h1
            | ok e =>
                rw [htc] at h1
                simp only [exceptBindOk, exceptPure] at h1
                split at h1
                · rename_i stored hst
                  cases h1
                  exact ⟨_, h1', rfl⟩
                · rename_i hst
                  cases h1
                  refine ⟨_, GetGraph_create_eq_existing_hit t _ exts kwargs ek ex
                    kp e e hek hexk hkp htc ?_, rfl⟩
                  rw [PDict.getD_insert_self]
                  exact PDict.get?_insert_self _ _ _
      · rename_i hexk
        cases htc : type_create t kwargs with
        | error e => rw [htc] at h1; cases h1
        | ok e1 =>
            rw [htc] at h1
            simp only [exceptBindOk, exceptPure] at h1
            obtain ⟨kp, hkp⟩ := get_existing_key_kp t kwargs ek hek
            obtain ⟨m, hm⟩ := type_create_pam t kwargs e1 htc
            obtain ⟨e2, htc2, hpt2⟩ :=
              create_overlay_stable t m kp kwargs ek e1 hk hm hkp hek htc
            have hid2 : (PDict.get? e2 "~id").getD Value.vNone
                = (PDict.get? e1 "~id").getD Value.vNone := by
              rw [hpt2 "~id"]
            split at h1
            · rename_i stored hst
              cases h1
              refine ⟨_, GetGraph_create_eq_existing_hit t ents _ kwargs ek e1
                kp e2 stored hek ?_ hkp htc2 ?_, rfl⟩
              · rw [PDict.getD_insert_self]
                exact PDict.get?_insert_self _ _ _
              · rw [hid2]
                exact hst
            · rename_i hst
              cases h1
              refine ⟨_, GetGraph_create_eq_existing_hit t _ _ kwargs ek e1
                kp e2 e1 hek ?_ hkp htc2 ?_, rfl⟩
              · rw [PDict.getD_insert_self]
                exact PDict.get?_insert_self _ _ _
              · rw [hid2, PDict.getD_insert_self]
                exact PDict.get?_insert_self _ _ _

/-- C4 witness: a concrete Table creation against empty state, run twice in
sequence, returns the same entity both times. -/
theorem create_idempotent_witness :
    ∃ r1, GetGraph_create TableVT PDict.nil PDict.nil
        [("key", Value.vStr "K"), ("name", Value.vStr "N")] = .ok r1
      ∧ ∃ r2, GetGraph_create TableVT r1.entities r1.existing
          [("key", Value.vStr "K"), ("name", Value.vStr "N")] = .ok r2
        ∧ r2.entity = r1.entity :=
  ⟨_, rfl, create_idempotent TableVT PDict.nil PDict.nil _ _ (by decide) rfl⟩
